import Mathlib

/-!
# Theme-engine: a shallow embedding of the theme reconciliation core

This file embeds, in Lean, the parts of the `theme-engine` repository that the
frozen claims are about:

* `src/utils/colors.ts` — `parseHSL`, `parseHex`, `rgbToHsl`, `formatHSL`;
* `src/providers/UnifiedThemeProvider.tsx` — `normalizeColorValueToHslTriplet`,
  `getStoredMode`, the persisted-mode and resolved-mode effects,
  `applyPresetColors`, and the `availablePresets` merge;
* `src/components/UnifiedThemeScript.tsx` — the inlined bootstrap normalizer
  and property applicator, and the bootstrap mode restoration;
* `src/utils/preset-validation.ts` — `validateTweakCNPreset`,
  `validateCustomPresets`, `isValidColorValue`.

Strings are modelled as Lean `String`/`List Char`; JavaScript numbers are
modelled as exact rationals (`ℚ`).  The values manipulated here (small decimal
literals and ratios of small integers, rounded to integers before printing)
are exactly representable, and JavaScript's shortest-round-trip number
printing is modelled by exact decimal printing, so the extensional behaviour
agrees on the inputs of interest.  The computed-style probe of the normalizers
(an environment capability) is modelled as unavailable/failing, which the spec
names as the accepted lossy fallback; every concrete input used in a theorem
below is decided before that branch is reached.
-/

namespace ThemeEngine

/-! ## Character classes and basic string operations (JS semantics) -/

/-- JavaScript whitespace (the `\s`/`trim` class, restricted to ASCII). -/
def isJsWs (c : Char) : Bool :=
  c.toNat = 32 || c.toNat = 9 || c.toNat = 10 || c.toNat = 13 ||
  c.toNat = 11 || c.toNat = 12

/-- Decimal digit (`\d`). -/
def isDigitCh (c : Char) : Bool := 48 ≤ c.toNat && c.toNat ≤ 57

/-- Numeric value of a decimal digit character. -/
def digitVal (c : Char) : ℕ := c.toNat - 48

/-- `String.prototype.trim` on a character list. -/
def jsTrimList (l : List Char) : List Char :=
  (((l.dropWhile isJsWs).reverse.dropWhile isJsWs)).reverse

/-- `String.prototype.trim`. -/
def jsTrim (s : String) : String := ⟨jsTrimList s.data⟩

/-- Longest leading run of decimal digits, and the rest. -/
def takeDigits : List Char → List Char × List Char
  | [] => ([], [])
  | c :: r =>
    if isDigitCh c then
      let (d, rest) := takeDigits r
      (c :: d, rest)
    else ([], c :: r)

/-- Value of a most-significant-first digit-character list. -/
def digitsToNat (l : List Char) : ℕ :=
  l.foldl (fun a c => 10 * a + digitVal c) 0

/-- Optional leading sign, as a rational factor. -/
def splitSign (l : List Char) : ℚ × List Char :=
  match l with
  | [] => (1, [])
  | c :: r => if c = '-' then (-1, r) else if c = '+' then (1, r) else (1, c :: r)

/-- Optional fraction part: a leading `.` consumes the dot and the digits
after it (JS numeric literals allow `5.`). -/
def splitFrac (l : List Char) : List Char × List Char :=
  match l with
  | [] => ([], [])
  | c :: r => if c = '.' then takeDigits r else ([], c :: r)

/-- Sign factor of an integer-literal front (`-` gives `-1`). -/
def signFactorInt (l : List Char) : ℤ :=
  match l with
  | [] => 1
  | c :: _ => if c = '-' then -1 else 1

/-- The rest after an optional leading sign character. -/
def afterSign (l : List Char) : List Char :=
  match l with
  | [] => []
  | c :: r => if c = '-' ∨ c = '+' then r else c :: r

/-- Optional exponent part, as a rational factor (`1` when absent; a dangling
`e` with no digits is ignored, as `parseFloat` does). -/
def expFactor (l : List Char) : ℚ :=
  match l with
  | [] => 1
  | c :: r =>
    if c = 'e' ∨ c = 'E' then
      let esgn := signFactorInt r
      let ed := (takeDigits (afterSign r)).1
      if ed.isEmpty then 1 else (10 : ℚ) ^ (esgn * (digitsToNat ed : ℤ))
    else 1

/-- Model of JavaScript `parseFloat`: skip leading whitespace, read an
optional sign, a decimal mantissa and an optional exponent from the longest
numeric front of the string; `none` models `NaN`. -/
def parseFloatJs (l0 : List Char) : Option ℚ :=
  let l1 := l0.dropWhile isJsWs
  let sgn := (splitSign l1).1
  let l2 := (splitSign l1).2
  let ip := (takeDigits l2).1
  let l3 := (takeDigits l2).2
  let fp := (splitFrac l3).1
  let l4 := (splitFrac l3).2
  if ip.isEmpty && fp.isEmpty then none
  else some (sgn * ((digitsToNat ip : ℚ) + (digitsToNat fp : ℚ) / 10 ^ fp.length) * expFactor l4)

/-- `parseFloat(x) || 0`, the idiom used throughout the source (`NaN`, like
`0`, is falsy and falls back to `0`, so both map to `0` here). -/
def parseFloatOr0 (l : List Char) : ℚ := (parseFloatJs l).getD 0

/-- `Math.round`: round half toward positive infinity. -/
def jsRound (q : ℚ) : ℤ := ⌊q + 1 / 2⌋

/-! ## Decimal printing of JavaScript numbers

JavaScript prints numbers in shortest round-trip decimal notation.  All the
numbers this code ever prints are finite decimals (parsed decimal literals,
clamped, or integers produced by `Math.round`), which we print exactly. -/

/-- The character for one decimal digit. -/
def digitChar (d : ℕ) : Char := Char.ofNat (48 + d)

/-- Decimal digit string of a natural number, with explicit fuel so that the
recursion is structural (any `fuel > n` gives the exact digits). -/
def natStrAux : ℕ → ℕ → List Char
  | 0, _ => []
  | fuel + 1, n =>
    if n < 10 then [digitChar n]
    else natStrAux fuel (n / 10) ++ [digitChar (n % 10)]

/-- Decimal digit string of a natural number. -/
def natStr (n : ℕ) : List Char := natStrAux (n + 1) n

/-- Smallest exponent `s ≤ den` with `den ∣ 10 ^ s`, when one exists. -/
def decScaleSearch (den : ℕ) : Option ℕ :=
  (List.range (den + 1)).find? (fun s => decide (den ∣ 10 ^ s))

/-- Exact decimal notation for a rational whose denominator divides a power
of ten (all other inputs are unreachable from the embedded code). -/
def ratToDecChars (q : ℚ) : List Char :=
  let sgnChars : List Char := if q < 0 then ['-'] else []
  let n : ℕ := q.num.natAbs
  match decScaleSearch q.den with
  | none => sgnChars ++ natStr n
  | some s =>
    let m : ℕ := n * 10 ^ s / q.den
    let ip := m / 10 ^ s
    let fp := m % 10 ^ s
    sgnChars ++ natStr ip ++
      (if s = 0 then [] else '.' :: (List.replicate (s - (natStr fp).length) '0' ++ natStr fp))

/-- String form of `ratToDecChars` (JS number-to-string conversion). -/
def ratToDecString (q : ℚ) : String := ⟨ratToDecChars q⟩

/-! ## `src/utils/colors.ts` -/

/-- HSL triple (`h` in degrees, `s`/`l` in percent), from colors.ts. -/
structure HSLColor where
  h : ℚ
  s : ℚ
  l : ℚ
deriving DecidableEq

/-- RGB triple (channels nominally in `[0, 255]`), from colors.ts. -/
structure RGBColor where
  r : ℚ
  g : ℚ
  b : ℚ
deriving DecidableEq

/-- `.replace(/hsl\(|\)/g, '')` (case-sensitive, as in colors.ts): scan left
to right, removing every `hsl(` and every `)`. -/
def stripHslParens : List Char → List Char
  | 'h' :: 's' :: 'l' :: '(' :: r => stripHslParens r
  | ')' :: r => stripHslParens r
  | c :: r => c :: stripHslParens r
  | [] => []

/-- `.replace(/[,%]/g, ' ')`. -/
def commaPctToSpace (l : List Char) : List Char :=
  l.map (fun c => if c = ',' ∨ c = '%' then ' ' else c)

/-- Accumulator-based splitter for `.split(/\s+/).filter(Boolean)`: `acc`
holds the current token, reversed. -/
def splitWsAux : List Char → List Char → List (List Char)
  | [], acc => if acc.isEmpty then [] else [acc.reverse]
  | c :: r, acc =>
    if isJsWs c then
      if acc.isEmpty then splitWsAux r [] else acc.reverse :: splitWsAux r []
    else splitWsAux r (c :: acc)

/-- `.split(/\s+/).filter(Boolean)`: whitespace-separated nonempty tokens. -/
def splitWs (l : List Char) : List (List Char) := splitWsAux l []

/-- `parseHSL` from colors.ts: strip `hsl(`/`)`, turn commas and percent
signs into spaces, split on whitespace; exactly three parts are required;
each parses through `parseFloat(...) || 0` and is clamped. -/
def parseHSL (hslString : String) : Option HSLColor :=
  let cleaned := jsTrimList (commaPctToSpace (stripHslParens hslString.data))
  match splitWs cleaned with
  | [p0, p1, p2] =>
    let h := parseFloatOr0 p0
    let s := parseFloatOr0 p1
    let l := parseFloatOr0 p2
    some ⟨max 0 (min 360 h), max 0 (min 100 s), max 0 (min 100 l)⟩
  | _ => none

/-- Hexadecimal digit. -/
def isHexDigitCh (c : Char) : Bool :=
  isDigitCh c || (97 ≤ c.toNat && c.toNat ≤ 102) || (65 ≤ c.toNat && c.toNat ≤ 70)

/-- Numeric value of a hexadecimal digit character. -/
def hexVal (c : Char) : ℕ :=
  if isDigitCh c then digitVal c
  else if 97 ≤ c.toNat then c.toNat - 97 + 10
  else c.toNat - 65 + 10

/-- Longest leading run of hexadecimal digits, and the rest. -/
def takeHexDigits : List Char → List Char × List Char
  | [] => ([], [])
  | c :: r =>
    if isHexDigitCh c then
      let (d, rest) := takeHexDigits r
      (c :: d, rest)
    else ([], c :: r)

/-- Value of a most-significant-first hexadecimal digit-character list. -/
def hexDigitsToNat (l : List Char) : ℕ :=
  l.foldl (fun a c => 16 * a + hexVal c) 0

/-- Model of JavaScript `parseInt(s, 16)`: skip whitespace, optional sign,
optional `0x`/`0X`, then the longest hexadecimal front; `none` models `NaN`. -/
def parseInt16 (l0 : List Char) : Option ℤ :=
  let l1 := l0.dropWhile isJsWs
  let (sgn, l2) : ℤ × List Char :=
    match l1 with
    | [] => (1, [])
    | c :: r => if c = '-' then (-1, r) else if c = '+' then (1, r) else (1, c :: r)
  let l3 :=
    match l2 with
    | '0' :: x :: r => if x = 'x' ∨ x = 'X' then r else l2
    | _ => l2
  let (ds, _) := takeHexDigits l3
  if ds.isEmpty then none else some (sgn * (hexDigitsToNat ds : ℤ))

/-- `'...'.replace('#', '')`: a string-argument replace removes only the
first occurrence. -/
def replaceFirstHash : List Char → List Char
  | [] => []
  | c :: r => if c = '#' then r else c :: replaceFirstHash r

/-- `parseHex` from colors.ts: drop a `#`, expand 3-digit to 6-digit, then
read three two-character hexadecimal components. -/
def parseHex (hexString : String) : Option RGBColor :=
  let hex0 := replaceFirstHash hexString.data
  let hex := if hex0.length = 3 then hex0.flatMap (fun c => [c, c]) else hex0
  if hex.length = 6 then
    match parseInt16 (hex.take 2), parseInt16 ((hex.drop 2).take 2), parseInt16 (hex.drop 4) with
    | some r, some g, some b => some ⟨(r : ℚ), (g : ℚ), (b : ℚ)⟩
    | _, _, _ => none
  else none

/-- `rgbToHsl` from colors.ts: the standard max/min-channel conversion, with
`Math.round` applied to each emitted component. -/
def rgbToHsl (rgb : RGBColor) : HSLColor :=
  let r := rgb.r / 255
  let g := rgb.g / 255
  let b := rgb.b / 255
  let mx := max r (max g b)
  let mn := min r (min g b)
  let diff := mx - mn
  let l := (mx + mn) / 2
  let s : ℚ :=
    if diff = 0 then 0
    else if l > 1 / 2 then diff / (2 - mx - mn) else diff / (mx + mn)
  let h0 : ℚ :=
    if diff = 0 then 0
    else if mx = r then (g - b) / diff + (if g < b then 6 else 0)
    else if mx = g then (b - r) / diff + 2
    else (r - g) / diff + 4
  let h := if diff = 0 then 0 else h0 / 6
  ⟨(jsRound (h * 360) : ℚ), (jsRound (s * 100) : ℚ), (jsRound (l * 100) : ℚ)⟩

/-- `formatHSL` from colors.ts. -/
def formatHSL (hsl : HSLColor) (includeHslWrapper : Bool) : String :=
  let values :=
    ratToDecString hsl.h ++ " " ++ ratToDecString hsl.s ++ "% " ++ ratToDecString hsl.l ++ "%"
  if includeHslWrapper then "hsl(" ++ values ++ ")" else values

/-! ## `src/providers/UnifiedThemeProvider.tsx`: color normalizer -/

/-- `normalizeColorValueToHslTriplet` from the provider: trim, try `parseHSL`,
then `parseHex`, then (in a browser) a `var(` fast path and a computed-style
probe.  The probe is modelled as unavailable/failing — the spec's accepted
lossy fallback — so that branch returns the trimmed input, exactly as the
source does when the probe produces no `rgb(...)` match. -/
def normalizeColorValueToHslTriplet (value : String) : String :=
  let trimmed := jsTrim value
  match parseHSL trimmed with
  | some parsedHsl => formatHSL parsedHsl false
  | none =>
    match parseHex trimmed with
    | some parsedRgb => formatHSL (rgbToHsl parsedRgb) false
    | none =>
      if trimmed.startsWith "var(" then trimmed
      else trimmed

/-! ## `src/providers/UnifiedThemeProvider.tsx`: mode state -/

/-- `getStoredMode`: `(localStorage.getItem(storageKey) as Mode) || null`.
The raw stored string is passed through unvalidated; only the empty string is
coerced to `null` by JS falsiness. -/
def getStoredMode (storedRaw : Option String) : Option String :=
  match storedRaw with
  | none => none
  | some s => if s = "" then none else some s

/-- The provider's persisted-mode effect (`if (stored) setMode(stored)`):
the mode state after hydration, given the raw stored slot value. -/
def modeAfterLoadEffect (defaultMode : String) (storedRaw : Option String) : String :=
  match getStoredMode storedRaw with
  | some m => m
  | none => defaultMode

/-- The provider's resolved-mode effect: `system` probes the OS signal;
any other mode string is cast through unchecked (`mode as "light" | "dark"`). -/
def resolvedModeOfEffect (mode : String) (osPrefersDark : Bool) : String :=
  if mode = "system" then (if osPrefersDark then "dark" else "light") else mode

/-- Mode restoration in the bootstrap script (UnifiedThemeScript): the stored
value is used only when it is one of the three valid mode strings. -/
def scriptEffectiveMode (storedMode : Option String) (defaultMode : String) : String :=
  let isValidMode :=
    storedMode = some "light" ∨ storedMode = some "dark" ∨ storedMode = some "system"
  if isValidMode then storedMode.getD defaultMode else defaultMode

/-! ## Fixed property set (`CSS_PROPERTY_CATEGORIES` in src/types/presets.ts,
inlined verbatim as `CSS_CATEGORIES` in the bootstrap script) -/

/-- The `colors` category. -/
def colorCategoryProps : List String :=
  ["background", "foreground", "card", "card-foreground", "popover", "popover-foreground",
   "primary", "primary-foreground", "secondary", "secondary-foreground",
   "muted", "muted-foreground", "accent", "accent-foreground",
   "destructive", "destructive-foreground", "border", "input", "ring",
   "chart-1", "chart-2", "chart-3", "chart-4", "chart-5",
   "sidebar", "sidebar-foreground", "sidebar-primary", "sidebar-primary-foreground",
   "sidebar-accent", "sidebar-accent-foreground", "sidebar-border", "sidebar-ring",
   "accent-info", "accent-info-foreground",
   "accent-success", "accent-success-foreground",
   "accent-warning", "accent-warning-foreground",
   "accent-danger", "accent-danger-foreground",
   "accent-brand", "accent-brand-foreground",
   "accent-feature", "accent-feature-foreground",
   "accent-highlight", "accent-highlight-foreground"]

/-- The `typography` category. -/
def typographyProps : List String := ["font-sans", "font-serif", "font-mono"]

/-- The `layout` category. -/
def layoutProps : List String := ["radius"]

/-- The `shadows` category. -/
def shadowProps : List String :=
  ["shadow-color", "shadow-opacity", "shadow-blur", "shadow-spread",
   "shadow-offset-x", "shadow-offset-y"]

/-- The `spacing` category. -/
def spacingProps : List String := ["letter-spacing", "spacing"]

/-- `allCategories` as built inside `applyPresetColors` (and `allProperties`
in the bootstrap script): the full fixed property set. -/
def allCategories : List String :=
  colorCategoryProps ++ typographyProps ++ layoutProps ++ shadowProps ++ spacingProps

/-! ## Property applicator (`applyPresetColors`) -/

/-- A JS string-record (a preset's per-mode style map, or the root element's
custom-property table), as a partial map: `none` models an absent key. -/
abbrev StyleMap := String → Option String

/-- The two resolved modes. -/
inductive ModeLD where
  | light
  | dark
deriving DecidableEq

/-- The other mode (`mode === 'light' ? 'dark' : 'light'`). -/
def otherModeOf : ModeLD → ModeLD
  | ModeLD.light => ModeLD.dark
  | ModeLD.dark => ModeLD.light

/-- A preset's `colors` object: each mode's map may be absent. -/
abbrev ThemeColors := ModeLD → Option StyleMap

/-- Record/property-table update (JS assignment or `setProperty`, with
`none` modelling `removeProperty`). -/
def setEntry (st : StyleMap) (k : String) (v : Option String) : StyleMap :=
  fun q => if q = k then v else st q

/-- JS truthiness of a possibly-absent string value. -/
def truthy : Option String → Bool
  | none => false
  | some s => s ≠ ""

/-- The `defaultValues` map inside `applyPresetColors` (and the script). -/
def defaultValues (prop : String) : Option String :=
  if prop = "spacing" then some "0.25rem"
  else if prop = "letter-spacing" then some "normal"
  else none

/-- The three font-family properties. -/
def fontProperties : List String := ["font-sans", "font-serif", "font-mono"]

/-- Whether a property's value goes through the color normalizer
(`CSS_PROPERTY_CATEGORIES.colors.includes(prop) || prop === 'shadow-color'`). -/
def isColorProp (prop : String) : Bool :=
  colorCategoryProps.contains prop || prop = "shadow-color"

/-- The provider's font-inheritance loop: for each font property absent from
the target map (`!(fontProp in colors)`) but present in the other mode's map
(`fontProp in otherModeColors`), the other mode's value is written into the
target map (in place, in the source). -/
def inheritFonts (colors : StyleMap) (otherModeColors : Option StyleMap) : StyleMap :=
  match otherModeColors with
  | none => colors
  | some om =>
    fontProperties.foldl
      (fun c fontProp =>
        if (c fontProp).isNone && (om fontProp).isSome then setEntry c fontProp (om fontProp)
        else c)
      colors

/-- Value resolution for one property: the (post-inheritance) map's value,
or the default-values entry when the map's value is falsy and a default
exists (`if (!value && defaultValues[prop]) value = defaultValues[prop]`). -/
def resolveValue (colors : StyleMap) (prop : String) : Option String :=
  let value := colors prop
  if !truthy value && (defaultValues prop).isSome then defaultValues prop else value

/-- One iteration of the provider's write loop: skip falsy resolved values,
normalize color-category values, write `--<prop>`. -/
def writeStep (colors : StyleMap) (st : StyleMap) (prop : String) : StyleMap :=
  match resolveValue colors prop with
  | some v =>
    if v ≠ "" then
      setEntry st ("--" ++ prop)
        (some (if isColorProp prop then normalizeColorValueToHslTriplet v else v))
    else st
  | none => st

/-- The value that one pass of the write loop leaves at `--prop` on a
freshly-cleared root: the written value when the resolved value is truthy,
absent otherwise. -/
def resolvedWrite (colors : StyleMap) (prop : String) : Option String :=
  match resolveValue colors prop with
  | some v =>
    if v ≠ "" then some (if isColorProp prop then normalizeColorValueToHslTriplet v else v)
    else none
  | none => none

/-- `applyPresetColors` from the provider.  Returns the updated root style
table and the preset as it stands afterwards: the source's font-inheritance
loop mutates the `colors` object of `preset[mode]` in place, so the returned
preset carries the patched target-mode map. -/
def applyPresetColors (preset : Option ThemeColors) (mode : ModeLD) (root : StyleMap) :
    StyleMap × Option ThemeColors :=
  match preset with
  | none => (root, none)
  | some p =>
    match p mode with
    | none => (root, some p)
    | some colors =>
      let root1 := allCategories.foldl (fun st prop => setEntry st ("--" ++ prop) none) root
      let colors' := inheritFonts colors (p (otherModeOf mode))
      let p' : ThemeColors := fun m => if m = mode then some colors' else p m
      let root2 := allCategories.foldl (writeStep colors') root1
      (root2, some p')

/-! ## Bootstrap script (`src/components/UnifiedThemeScript.tsx`) -/

/-- Fuel-driven scanner for a case-insensitive `.replace(/⟨w⟩\(|\)/gi, '')`
where `⟨w⟩` is a three-letter word given in lowercase. -/
def stripFnParensCIAux (w1 w2 w3 : Char) : ℕ → List Char → List Char
  | 0, l => l
  | fuel + 1, l =>
    match l with
    | [] => []
    | c :: r =>
      if c = ')' then stripFnParensCIAux w1 w2 w3 fuel r
      else
        match r with
        | c2 :: c3 :: c4 :: r2 =>
          if c.toLower = w1 ∧ c2.toLower = w2 ∧ c3.toLower = w3 ∧ c4 = '(' then
            stripFnParensCIAux w1 w2 w3 fuel r2
          else c :: stripFnParensCIAux w1 w2 w3 fuel r
        | _ => c :: stripFnParensCIAux w1 w2 w3 fuel r

/-- Case-insensitive `.replace(/hsl\(|\)/gi, '')`. -/
def stripHslParensCI (l : List Char) : List Char :=
  stripFnParensCIAux 'h' 's' 'l' l.length l

/-- Case-insensitive `.replace(/rgb\(|\)/gi, '')`. -/
def stripRgbParensCI (l : List Char) : List Char :=
  stripFnParensCIAux 'r' 'g' 'b' l.length l

/-- `.split(',')`: comma-separated parts (empty parts kept). -/
def splitComma (l : List Char) : List (List Char) :=
  match l with
  | [] => [[]]
  | c :: r =>
    if c = ',' then [] :: splitComma r
    else
      match splitComma r with
      | [] => [[c]]
      | p :: ps => (c :: p) :: ps

/-- Case-insensitive test that `l` starts with the given pattern. -/
def startsWithCI (pat : List Char) (l : List Char) : Bool :=
  (l.take pat.length).map Char.toLower = pat

/-- `\d+`: at least one digit, returning the rest. -/
def munchDigits1 (l : List Char) : Option (List Char) :=
  let (d, r) := takeDigits l
  if d.isEmpty then none else some r

/-- `\d+(?:\.\d+)?`. -/
def munchNum (l : List Char) : Option (List Char) :=
  match munchDigits1 l with
  | none => none
  | some r =>
    match r with
    | '.' :: r2 =>
      match takeDigits r2 with
      | ([], _) => some r
      | (_ :: _, r3) => some r3
    | _ => some r

/-- `\s+`. -/
def munchWs1 (l : List Char) : Option (List Char) :=
  let r := l.dropWhile isJsWs
  if r.length = l.length then none else some r

/-- The script's raw-triplet test
`/^\d+(?:\.\d+)?\s+\d+(?:\.\d+)?%\s+\d+(?:\.\d+)?%$/`. -/
def scriptTripletTest (l : List Char) : Bool :=
  (do
    let r1 ← munchNum l
    let r2 ← munchWs1 r1
    let r3 ← munchNum r2
    let r4 ← match r3 with | '%' :: t => some t | _ => none
    let r5 ← munchWs1 r4
    let r6 ← munchNum r5
    let r7 ← match r6 with | '%' :: t => some t | _ => none
    if r7.isEmpty then some () else none : Option Unit).isSome

/-- The script's `clamp(n, min, max)`. -/
def scriptClamp (n mn mx : ℚ) : ℚ := min mx (max mn n)

/-- The script's inlined `rgbToHsl` (same max/min-channel conversion as
colors.ts, reimplemented inside the script body). -/
def scriptRgbToHsl (r0 g0 b0 : ℚ) : HSLColor :=
  let r := r0 / 255
  let g := g0 / 255
  let b := b0 / 255
  let mx := max r (max g b)
  let mn := min r (min g b)
  let diff := mx - mn
  let l := (mx + mn) / 2
  let s : ℚ :=
    if diff = 0 then 0
    else if l > 1 / 2 then diff / (2 - mx - mn) else diff / (mx + mn)
  let h0 : ℚ :=
    if diff = 0 then 0
    else if mx = r then (g - b) / diff + (if g < b then 6 else 0)
    else if mx = g then (b - r) / diff + 2
    else (r - g) / diff + 4
  let h := if diff = 0 then 0 else h0 / 6
  ⟨(jsRound (h * 360) : ℚ), (jsRound (s * 100) : ℚ), (jsRound (l * 100) : ℚ)⟩

/-- The script's `hexToRgb`: drop the first `#`, trim, expand 3-digit,
drop an 8-digit alpha pair, then read three two-character components. -/
def scriptHexToRgb (hexChars : List Char) : Option (ℤ × ℤ × ℤ) :=
  let clean0 := jsTrimList (replaceFirstHash hexChars)
  let clean1 := if clean0.length = 3 then clean0.flatMap (fun c => [c, c]) else clean0
  let clean := if clean1.length = 8 then clean1.take 6 else clean1
  if clean.length = 6 then
    match parseInt16 (clean.take 2), parseInt16 ((clean.drop 2).take 2),
        parseInt16 (clean.drop 4) with
    | some r, some g, some b => some (r, g, b)
    | _, _, _ => none
  else none

/-- The script's `toTriplet`: clamp and stringify without rounding. -/
def scriptToTriplet (hsl : HSLColor) : String :=
  ratToDecString (scriptClamp hsl.h 0 360) ++ " " ++
  ratToDecString (scriptClamp hsl.s 0 100) ++ "% " ++
  ratToDecString (scriptClamp hsl.l 0 100) ++ "%"

/-- The bootstrap script's inlined `normalizeColorValueToHslTriplet`.  As for
the runtime normalizer, the computed-style probe is modelled as
unavailable/failing, so its branch returns the original `value`. -/
def scriptNormalizeColorValueToHslTriplet (value : String) : String :=
  if value = "" then value
  else
    let trimmed := jsTrim value
    if trimmed = "" then value
    else if trimmed.startsWith "var(" then trimmed
    else if scriptTripletTest trimmed.data then trimmed
    else
      let hslTry : Option String :=
        if startsWithCI ['h', 's', 'l', '('] trimmed.data then
          match splitWs (jsTrimList (commaPctToSpace (stripHslParensCI trimmed.data))) with
          | [p0, p1, p2] =>
            some (scriptToTriplet ⟨parseFloatOr0 p0, parseFloatOr0 p1, parseFloatOr0 p2⟩)
          | _ => none
        else none
      match hslTry with
      | some out => out
      | none =>
        let rgbTry : Option String :=
          if startsWithCI ['r', 'g', 'b', '('] trimmed.data then
            match (splitComma (jsTrimList (stripRgbParensCI trimmed.data))).map jsTrimList with
            | [p0, p1, p2] =>
              let r := scriptClamp (parseFloatOr0 p0) 0 255
              let g := scriptClamp (parseFloatOr0 p1) 0 255
              let b := scriptClamp (parseFloatOr0 p2) 0 255
              some (scriptToTriplet (scriptRgbToHsl r g b))
            | _ => none
          else none
        match rgbTry with
        | some out => out
        | none =>
          let hexTry : Option String :=
            match trimmed.data with
            | '#' :: _ =>
              (scriptHexToRgb trimmed.data).map
                (fun rgb => scriptToTriplet (scriptRgbToHsl (rgb.1 : ℚ) (rgb.2.1 : ℚ) (rgb.2.2 : ℚ)))
            | _ => none
          match hexTry with
          | some out => out
          | none => value

/-- The bootstrap script's `applyPresetProperties`: clear the full fixed
property set, then write each resolved value (defaults for `spacing` and
`letter-spacing`, the script's normalizer for color-category values). -/
def scriptApplyPresetProperties (colors : Option StyleMap) (root : StyleMap) : StyleMap :=
  match colors with
  | none => root
  | some cs =>
    let root1 := allCategories.foldl (fun st prop => setEntry st ("--" ++ prop) none) root
    allCategories.foldl
      (fun st prop =>
        match resolveValue cs prop with
        | some v =>
          if v ≠ "" then
            setEntry st ("--" ++ prop)
              (some (if isColorProp prop then scriptNormalizeColorValueToHslTriplet v else v))
          else st
        | none => st)
      root1

/-! ## `src/utils/preset-validation.ts` -/

/-- Duck-typed JS values, as the validator sees them. -/
inductive JsVal where
  | vstr (s : String)
  | vnum (q : ℚ)
  | vbool (b : Bool)
  | vnull
  | vobj (fields : List (String × JsVal))

/-- JS truthiness. -/
def jsTruthy : JsVal → Bool
  | JsVal.vstr s => s ≠ ""
  | JsVal.vnum q => q ≠ 0
  | JsVal.vbool b => b
  | JsVal.vnull => false
  | JsVal.vobj _ => true

/-- `typeof x === 'object'` (true for objects and for `null`). -/
def isObjectType : JsVal → Bool
  | JsVal.vobj _ => true
  | JsVal.vnull => true
  | _ => false

/-- Property access on a JS value (`undefined` is modelled as `none`). -/
def objGet (v : JsVal) (k : String) : Option JsVal :=
  match v with
  | JsVal.vobj fields => fields.lookup k
  | _ => none

/-- Truthiness of a possibly-`undefined` value. -/
def optTruthy : Option JsVal → Bool
  | none => false
  | some v => jsTruthy v

/-- `typeof x === 'string'` on a possibly-`undefined` value. -/
def optIsString : Option JsVal → Bool
  | some (JsVal.vstr _) => true
  | _ => false

/-- `REQUIRED_PROPERTIES`. -/
def REQUIRED_PROPERTIES : List String :=
  ["background", "foreground", "primary", "primary-foreground",
   "secondary", "secondary-foreground", "card", "card-foreground"]

/-- `RECOMMENDED_PROPERTIES`. -/
def RECOMMENDED_PROPERTIES : List String :=
  ["border", "input", "ring", "muted", "muted-foreground", "accent",
   "accent-foreground", "destructive", "destructive-foreground",
   "popover", "popover-foreground"]

/-- `/^#([0-9a-f]{3}|[0-9a-f]{6}|[0-9a-f]{8})$/i`. -/
def hexColorRe (l : List Char) : Bool :=
  match l with
  | '#' :: rest =>
    (rest.length = 3 || rest.length = 6 || rest.length = 8) && rest.all isHexDigitCh
  | _ => false

/-- One literal character. -/
def matchChar (c : Char) (l : List Char) : Option (List Char) :=
  match l with
  | d :: r => if d = c then some r else none
  | [] => none

/-- A case-insensitive literal. -/
def matchLitCI (pat : List Char) (l : List Char) : Option (List Char) :=
  if startsWithCI pat l then some (l.drop pat.length) else none

/-- `/^hsl\(\s*\d+\s*,\s*\d+%\s*,\s*\d+%\s*\)$/i`. -/
def hslStrictRe (l : List Char) : Bool :=
  (do
    let r1 ← matchLitCI ['h', 's', 'l', '('] l
    let r2 ← munchDigits1 (r1.dropWhile isJsWs)
    let r3 ← matchChar ',' (r2.dropWhile isJsWs)
    let r4 ← munchDigits1 (r3.dropWhile isJsWs)
    let r5 ← matchChar '%' r4
    let r6 ← matchChar ',' (r5.dropWhile isJsWs)
    let r7 ← munchDigits1 (r6.dropWhile isJsWs)
    let r8 ← matchChar '%' r7
    let r9 ← matchChar ')' (r8.dropWhile isJsWs)
    if r9.isEmpty then some () else none : Option Unit).isSome

/-- `/^rgb\(\s*\d+\s*,\s*\d+\s*,\s*\d+\s*\)$/i`. -/
def rgbStrictRe (l : List Char) : Bool :=
  (do
    let r1 ← matchLitCI ['r', 'g', 'b', '('] l
    let r2 ← munchDigits1 (r1.dropWhile isJsWs)
    let r3 ← matchChar ',' (r2.dropWhile isJsWs)
    let r4 ← munchDigits1 (r3.dropWhile isJsWs)
    let r5 ← matchChar ',' (r4.dropWhile isJsWs)
    let r6 ← munchDigits1 (r5.dropWhile isJsWs)
    let r7 ← matchChar ')' (r6.dropWhile isJsWs)
    if r7.isEmpty then some () else none : Option Unit).isSome

/-- A `\w`-or-hyphen character. -/
def wordDashCh (c : Char) : Bool :=
  isDigitCh c || (65 ≤ c.toNat && c.toNat ≤ 90) || (97 ≤ c.toNat && c.toNat ≤ 122) ||
  c = '_' || c = '-'

/-- `/^var\(--[\w-]+\)$/i`. -/
def cssVarRe (l : List Char) : Bool :=
  if startsWithCI ['v', 'a', 'r', '(', '-', '-'] l then
    match (l.drop 6).reverse with
    | ')' :: midRev => !midRev.isEmpty && midRev.all wordDashCh
    | _ => false
  else false

/-- ASCII lower-casing of a whole string (`toLowerCase`). -/
def lowerStr (s : String) : String := ⟨s.data.map Char.toLower⟩

/-- The validator's built-in CSS color-name list. -/
def cssColors : List String :=
  ["transparent", "inherit", "currentcolor",
   "black", "white", "red", "green", "blue",
   "yellow", "orange", "purple", "pink", "gray", "grey"]

/-- `isValidColorValue` from preset-validation.ts.  Each syntax check returns
`true`; the final catch-all also returns `true` ("it might still be valid
(e.g., newer CSS features) — return true but let the browser handle
validation"). -/
def isValidColorValue (value : String) : Bool :=
  let trimmed := jsTrim value
  if hexColorRe trimmed.data then true
  else if hslStrictRe trimmed.data then true
  else if rgbStrictRe trimmed.data then true
  else if cssVarRe trimmed.data then true
  else if cssColors.contains (lowerStr trimmed) then true
  else true

/-- The recognizer part of `isValidColorValue`: the five syntax checks that
precede the final catch-all `return true`.  This is the spec's "permissive
color-syntax recognizer (hex/hsl/rgb/`var()`/named colors)". -/
def isRecognizedColorSyntax (value : String) : Bool :=
  let trimmed := jsTrim value
  hexColorRe trimmed.data || hslStrictRe trimmed.data || rgbStrictRe trimmed.data ||
  cssVarRe trimmed.data || cssColors.contains (lowerStr trimmed)

/-- `ValidationResult` from preset-validation.ts. -/
structure ValidationResult where
  isValid : Bool
  errors : List String
  warnings : List String
deriving DecidableEq

/-- Required-property errors for one mode map. -/
def requiredErrors (pfx mode : String) (modeStyles : List (String × JsVal)) : List String :=
  REQUIRED_PROPERTIES.filterMap (fun prop =>
    let v := modeStyles.lookup prop
    if !(optTruthy v) || !(optIsString v) then
      some (pfx ++ " Missing required " ++ mode ++ " property: " ++ prop)
    else none)

/-- Recommended-property warnings for one mode map. -/
def recommendedWarnings (pfx mode : String) (modeStyles : List (String × JsVal)) : List String :=
  RECOMMENDED_PROPERTIES.filterMap (fun prop =>
    if !(optTruthy (modeStyles.lookup prop)) then
      some (pfx ++ " Missing recommended " ++ mode ++ " property: " ++ prop)
    else none)

/-- Color-value warnings for one mode map (the `Object.entries` loop): a
warning for every present, non-blank string value that fails
`isValidColorValue`. -/
def colorValueWarnings (pfx mode : String) (modeStyles : List (String × JsVal)) : List String :=
  modeStyles.filterMap (fun kv =>
    match kv.2 with
    | JsVal.vstr s =>
      if jsTrim s ≠ "" && !(isValidColorValue s) then
        some (pfx ++ " " ++ mode ++ "." ++ kv.1 ++ " may not be a valid color: \"" ++ s ++ "\"")
      else none
    | _ => none)

/-- Per-mode validation: a hard error when the mode map is not a truthy
object, otherwise required errors plus recommended and color warnings. -/
def modeValidation (pfx mode : String) (stylesObj : JsVal) : List String × List String :=
  match objGet stylesObj mode with
  | some (JsVal.vobj fields) =>
    (requiredErrors pfx mode fields,
     recommendedWarnings pfx mode fields ++ colorValueWarnings pfx mode fields)
  | _ => ([pfx ++ " Must have " ++ mode ++ " mode styles"], [])

/-- `validateTweakCNPreset` from preset-validation.ts. -/
def validateTweakCNPreset (preset : JsVal) (presetId : Option String) : ValidationResult :=
  let pfx := match presetId with
    | some pid => "Preset \"" ++ pid ++ "\":"
    | none => "Preset:"
  if !(jsTruthy preset) || !(isObjectType preset) then
    ⟨false, [pfx ++ " Must be an object"], []⟩
  else
    let labelErrs :=
      match objGet preset "label" with
      | some (JsVal.vstr s) =>
        if s = "" ∨ jsTrim s = "" then [pfx ++ " Must have a non-empty label"] else []
      | _ => [pfx ++ " Must have a non-empty label"]
    let stylesVal := objGet preset "styles"
    if !(optTruthy stylesVal) || !(match stylesVal with | some v => isObjectType v | none => false) then
      ⟨false, labelErrs ++ [pfx ++ " Must have a styles object"], []⟩
    else
      match stylesVal with
      | some styles =>
        let lightRes := modeValidation pfx "light" styles
        let darkRes := modeValidation pfx "dark" styles
        let errors := labelErrs ++ lightRes.1 ++ darkRes.1
        ⟨errors.isEmpty, errors, lightRes.2 ++ darkRes.2⟩
      | none => ⟨false, labelErrs ++ [pfx ++ " Must have a styles object"], []⟩

/-- `/^[a-z0-9-_]+$/`. -/
def idPatternOk (s : String) : Bool :=
  s ≠ "" && s.data.all (fun c => (97 ≤ c.toNat && c.toNat ≤ 122) || isDigitCh c || c = '-' || c = '_')

/-- `validateCustomPresets` from preset-validation.ts: a collection is a
record, modelled as its (unique-keyed, insertion-ordered) entry list.  Keys
that are empty (or blank) strings yield a hard error and skip that entry;
ill-patterned keys yield a warning but the entry is still validated. -/
def validateCustomPresets (customPresets : List (String × JsVal)) : ValidationResult :=
  let step := fun (acc : List String × List String) (kv : String × JsVal) =>
    if kv.1 = "" ∨ jsTrim kv.1 = "" then
      (acc.1 ++ ["Preset ID must be a non-empty string"], acc.2)
    else
      let warns1 :=
        if idPatternOk kv.1 then acc.2
        else acc.2 ++ ["Preset ID \"" ++ kv.1 ++
          "\" should only contain lowercase letters, numbers, hyphens, and underscores"]
      let result := validateTweakCNPreset kv.2 (some kv.1)
      (acc.1 ++ result.errors, warns1 ++ result.warnings)
  let folded := customPresets.foldl step ([], [])
  ⟨folded.1.isEmpty, folded.1, folded.2⟩

/-! ## Preset registry (`availablePresets` in the provider)

`src/data/tweakcn-presets.ts` is not part of the source excerpt; only its
callers are.  Its contents do not matter for the merge-policy claims, which
hold for any built-in collection. -/

/-- Modelled from the spec: `tweakcnPresets`, the repository's static
built-in preset collection (from the missing `src/data/tweakcn-presets.ts`).
The spec names `modern-minimal` as a built-in id; one representative entry
stands in for the full collection, whose contents the theorems below never
depend on. -/
def tweakcnPresets : List (String × JsVal) :=
  [("modern-minimal",
    JsVal.vobj
      [("label", JsVal.vstr "Modern Minimal"),
       ("styles",
        JsVal.vobj
          [("light", JsVal.vobj [("background", JsVal.vstr "0 0% 100%")]),
           ("dark", JsVal.vobj [("background", JsVal.vstr "222 47% 11%")])])])]

/-- Record lookup (`record[key]`). -/
def recLookup (record : List (String × JsVal)) (k : String) : Option JsVal :=
  record.lookup k

/-- The provider's `availablePresets` memo: built-ins always included; a
nonempty custom collection is validated as a whole and merged (overriding
built-ins by key) only when it has no hard errors
(`validationResult.isValid || validationResult.errors.length === 0`). -/
def availablePresets (customPresets : List (String × JsVal)) : String → Option JsVal :=
  let merged := fun k => recLookup tweakcnPresets k
  if customPresets.isEmpty then merged
  else
    let validationResult := validateCustomPresets customPresets
    if validationResult.isValid || validationResult.errors.isEmpty then
      fun k => (recLookup customPresets k).orElse (fun _ => merged k)
    else merged

/-- `builtInPresets` in the provider: always the static collection. -/
def builtInPresets : List (String × JsVal) := tweakcnPresets

/-! ## Auxiliary predicates and concrete data used by the theorems -/

/-- A rational with a finite decimal expansion (the only numbers the
embedded code ever prints). -/
def IsDec (q : ℚ) : Prop := ∃ (m : ℤ) (k : ℕ), q = (m : ℚ) / 10 ^ k

/-- Characters that can occur in a printed nonnegative decimal numeral. -/
def tokenCh (c : Char) : Bool := isDigitCh c || c = '.'

/-- Whether a string contains a decimal point (a fractional component). -/
def mentionsDot (s : String) : Bool := s.data.any (fun c => c = '.')

/-- The empty root style table / empty mode map. -/
def emptyStyle : StyleMap := fun _ => none

/-- A one-entry style map. -/
def singleEntry (k v : String) : StyleMap :=
  fun q => if q = k then some v else none

/-- Example preset whose light map holds `background: rgb(255, 0, 0)`. -/
def exRgbPreset : ThemeColors :=
  fun _ => some (singleEntry "background" "rgb(255, 0, 0)")

/-- Example preset A for the clearing invariant: a light `background`. -/
def exPresetA : ThemeColors :=
  fun _ => some (singleEntry "background" "1 2% 3%")

/-- Example preset B for the clearing invariant: both maps empty. -/
def exPresetB : ThemeColors := fun _ => some emptyStyle

/-- Example preset for font inheritance: `light.font-mono = "X"`, dark empty. -/
def exFontPreset : ThemeColors :=
  fun m => match m with
    | ModeLD.light => some (singleEntry "font-mono" "X")
    | ModeLD.dark => some emptyStyle

/-- Example preset with no dark map at all (for the early-return claim). -/
def exNoDarkPreset : ThemeColors :=
  fun m => match m with
    | ModeLD.light => some (singleEntry "background" "#fff")
    | ModeLD.dark => none

/-- A fully-populated mode map: all required and recommended properties. -/
def exGoodModeFields : List (String × JsVal) :=
  (REQUIRED_PROPERTIES ++ RECOMMENDED_PROPERTIES).map (fun p => (p, JsVal.vstr "#ffffff"))

/-- The same mode map with one unrecognized (but non-blank) color value. -/
def exBogusModeFields : List (String × JsVal) :=
  (REQUIRED_PROPERTIES ++ RECOMMENDED_PROPERTIES).map
    (fun p => (p, if p = "border" then JsVal.vstr "blurple-zap-0.5" else JsVal.vstr "#ffffff"))

/-- A schema-valid candidate preset whose dark `border` value is not
recognized by the color-syntax recognizer. -/
def exBogusColorCandidate : JsVal :=
  JsVal.vobj
    [("label", JsVal.vstr "C"),
     ("styles",
      JsVal.vobj
        [("light", JsVal.vobj exGoodModeFields),
         ("dark", JsVal.vobj exBogusModeFields)])]

/-- A custom collection with a hard error (the entry is not an object). -/
def exBadCollection : List (String × JsVal) := [("bad", JsVal.vstr "nope")]

/-! ## Lemmas: characters and digit strings -/

theorem tokenCh_not_ws {c : Char} (h : tokenCh c = true) : isJsWs c = false := by
  rcases Bool.or_eq_true _ _ |>.mp h with hd | hdot
  · simp only [isDigitCh, Bool.and_eq_true, decide_eq_true_eq] at hd
    simp only [isJsWs, Bool.or_eq_false_iff, decide_eq_false_iff_not]
    omega
  · simp only [decide_eq_true_eq] at hdot
    subst hdot
    decide

theorem tokenCh_ne_special {c : Char} (h : tokenCh c = true) :
    c ≠ 'h' ∧ c ≠ ')' ∧ c ≠ ',' ∧ c ≠ '%' ∧ c ≠ '-' ∧ c ≠ '+' := by
  rcases Bool.or_eq_true _ _ |>.mp h with hd | hdot
  · simp only [isDigitCh, Bool.and_eq_true, decide_eq_true_eq] at hd
    refine ⟨?_, ?_, ?_, ?_, ?_, ?_⟩ <;>
      (intro he; subst he; revert hd; decide)
  · simp only [decide_eq_true_eq] at hdot
    subst hdot
    refine ⟨by decide, by decide, by decide, by decide, by decide, by decide⟩

theorem digit_tokenCh {c : Char} (h : isDigitCh c = true) : tokenCh c = true := by
  simp [tokenCh, h]

theorem digitChar_spec {d : ℕ} (h : d < 10) :
    isDigitCh (digitChar d) = true ∧ digitVal (digitChar d) = d ∧ digitChar d ≠ '.' := by
  interval_cases d <;> refine ⟨by decide, by decide, by decide⟩

theorem natStrAux_spec : ∀ fuel n, n < fuel →
    natStrAux fuel n ≠ [] ∧ (∀ c ∈ natStrAux fuel n, isDigitCh c = true) ∧
      digitsToNat (natStrAux fuel n) = n := by
  intro fuel
  induction fuel with
  | zero => intro n hn; omega
  | succ fuel ih =>
    intro n hn
    by_cases h10 : n < 10
    · simp only [natStrAux, if_pos h10]
      obtain ⟨hd, hv, _⟩ := digitChar_spec h10
      refine ⟨by simp, ?_, ?_⟩
      · intro c hc
        simp only [List.mem_singleton] at hc
        subst hc; exact hd
      · simp [digitsToNat, hv]
    · have hdiv : n / 10 < fuel := by omega
      obtain ⟨hne, hdig, hval⟩ := ih (n / 10) hdiv
      have hmod : n % 10 < 10 := Nat.mod_lt _ (by omega)
      obtain ⟨hd2, hv2, _⟩ := digitChar_spec hmod
      simp only [natStrAux, if_neg h10]
      refine ⟨by simp, ?_, ?_⟩
      · intro c hc
        rcases List.mem_append.mp hc with hc | hc
        · exact hdig c hc
        · simp only [List.mem_singleton] at hc; subst hc; exact hd2
      · simp only [digitsToNat, List.foldl_append, List.foldl_cons, List.foldl_nil]
        simp only [digitsToNat] at hval
        rw [hval, hv2]
        omega

theorem natStr_spec (n : ℕ) :
    natStr n ≠ [] ∧ (∀ c ∈ natStr n, isDigitCh c = true) ∧ digitsToNat (natStr n) = n :=
  natStrAux_spec (n + 1) n (by omega)

theorem natStrAux_length_le : ∀ fuel n k, n < fuel → n < 10 ^ k → 0 < k →
    (natStrAux fuel n).length ≤ k := by
  intro fuel
  induction fuel with
  | zero => intro n k hn; omega
  | succ fuel ih =>
    intro n k hn hk hk0
    by_cases h10 : n < 10
    · simp [natStrAux, if_pos h10]
      omega
    · have hk2 : 2 ≤ k := by
        by_contra hlt
        interval_cases k <;> omega
      have hdivk : n / 10 < 10 ^ (k - 1) := by
        have : n < 10 ^ (k - 1) * 10 := by
          have : 10 ^ (k - 1) * 10 = 10 ^ k := by
            have : k - 1 + 1 = k := by omega
            calc 10 ^ (k - 1) * 10 = 10 ^ (k - 1 + 1) := by ring
              _ = 10 ^ k := by rw [this]
          omega
        omega
      have := ih (n / 10) (k - 1) (by omega) hdivk (by omega)
      simp only [natStrAux, if_neg h10, List.length_append, List.length_singleton]
      omega

theorem natStr_length_le {n k : ℕ} (hk : n < 10 ^ k) (hk0 : 0 < k) :
    (natStr n).length ≤ k :=
  natStrAux_length_le (n + 1) n k (by omega) hk hk0

theorem digitsToNat_replicate_zero (z : ℕ) (l : List Char) :
    digitsToNat (List.replicate z '0' ++ l) = digitsToNat l := by
  induction z with
  | zero => simp
  | succ z ih =>
    simp only [List.replicate_succ, List.cons_append, digitsToNat, List.foldl_cons]
    have : digitVal '0' = 0 := by decide
    simpa [digitsToNat, this] using ih

theorem takeDigits_append {d r : List Char} (hd : ∀ c ∈ d, isDigitCh c = true)
    (hr : ∀ c, r.head? = some c → isDigitCh c = false) :
    takeDigits (d ++ r) = (d, r) := by
  induction d with
  | nil =>
    simp only [List.nil_append]
    cases r with
    | nil => rfl
    | cons c r' =>
      have := hr c rfl
      simp [takeDigits, this]
  | cons c d' ih =>
    have hc : isDigitCh c = true := hd c (by simp)
    have ih' := ih (fun x hx => hd x (by simp [hx]))
    simp [takeDigits, hc, ih']

theorem dropWhile_eq_self_of_head {p : Char → Bool} {l : List Char}
    (h : ∀ c, l.head? = some c → p c = false) : l.dropWhile p = l := by
  cases l with
  | nil => rfl
  | cons c r => simp [List.dropWhile_cons, h c rfl]

/-! ## Lemmas: decimal parsing produces decimals -/

theorem splitSign_not_sign {l : List Char}
    (h : ∀ c, l.head? = some c → c ≠ '-' ∧ c ≠ '+') : splitSign l = (1, l) := by
  cases l with
  | nil => rfl
  | cons c r =>
    obtain ⟨h1, h2⟩ := h c rfl
    simp [splitSign, h1, h2]

theorem isDec_intCast (m : ℤ) : IsDec (m : ℚ) := ⟨m, 0, by norm_num⟩

theorem isDec_natCast (n : ℕ) : IsDec (n : ℚ) := ⟨n, 0, by norm_num⟩

theorem IsDec.mul {a b : ℚ} (ha : IsDec a) (hb : IsDec b) : IsDec (a * b) := by
  obtain ⟨m1, k1, h1⟩ := ha
  obtain ⟨m2, k2, h2⟩ := hb
  refine ⟨m1 * m2, k1 + k2, ?_⟩
  subst h1 h2
  push_cast
  ring

theorem IsDec.neg {a : ℚ} (ha : IsDec a) : IsDec (-a) := by
  obtain ⟨m, k, h⟩ := ha
  exact ⟨-m, k, by subst h; push_cast; ring⟩

theorem isDec_zpow_ten (z : ℤ) : IsDec ((10 : ℚ) ^ z) := by
  rcases Int.le_or_lt 0 z with hz | hz
  · lift z to ℕ using hz
    refine ⟨10 ^ z, 0, ?_⟩
    push_cast
    rw [zpow_natCast]
    norm_num
  · refine ⟨1, (-z).toNat, ?_⟩
    have hz' : ((-z).toNat : ℤ) = -z := Int.toNat_of_nonneg (by omega)
    rw [Int.cast_one]
    rw [eq_div_iff (by positivity), ← zpow_natCast (10 : ℚ) ((-z).toNat), hz',
      ← zpow_add₀ (by norm_num : (10:ℚ) ≠ 0)]
    norm_num

theorem IsDec.minD {a b : ℚ} (ha : IsDec a) (hb : IsDec b) : IsDec (min a b) := by
  rcases min_choice a b with h | h <;> rw [h]
  · exact ha
  · exact hb

theorem IsDec.maxD {a b : ℚ} (ha : IsDec a) (hb : IsDec b) : IsDec (max a b) := by
  rcases max_choice a b with h | h <;> rw [h]
  · exact ha
  · exact hb

theorem expFactor_isDec (l : List Char) : IsDec (expFactor l) := by
  simp only [expFactor]
  split
  · exact isDec_natCast 1
  · split_ifs with hc hd
    · exact isDec_natCast 1
    · exact isDec_zpow_ten _
    · exact isDec_natCast 1

theorem splitSign_fst {l : List Char} : (splitSign l).1 = 1 ∨ (splitSign l).1 = -1 := by
  unfold splitSign
  split
  · left; rfl
  · split_ifs
    · right; rfl
    · left; rfl
    · left; rfl

theorem parseFloatJs_isDec {l : List Char} {q : ℚ} (h : parseFloatJs l = some q) : IsDec q := by
  simp only [parseFloatJs] at h
  split_ifs at h
  rw [Option.some_inj] at h
  subst h
  set l2 := (splitSign (l.dropWhile isJsWs)).2
  set ip := (takeDigits l2).1
  set fp := (splitFrac (takeDigits l2).2).1
  have hmant : IsDec ((digitsToNat ip : ℚ) + (digitsToNat fp : ℚ) / 10 ^ fp.length) := by
    refine ⟨(digitsToNat ip : ℤ) * 10 ^ fp.length + (digitsToNat fp : ℤ), fp.length, ?_⟩
    push_cast
    field_simp
  have hsgn : IsDec (splitSign (l.dropWhile isJsWs)).1 := by
    rcases splitSign_fst (l := l.dropWhile isJsWs) with h1 | h1 <;> rw [h1]
    · exact isDec_natCast 1
    · exact (isDec_natCast 1).neg
  exact (hsgn.mul hmant).mul (expFactor_isDec _)

theorem parseFloatOr0_isDec (l : List Char) : IsDec (parseFloatOr0 l) := by
  unfold parseFloatOr0
  cases hp : parseFloatJs l with
  | none => exact isDec_natCast 0
  | some q => exact parseFloatJs_isDec hp

/-! ## Lemmas: decimal printing round-trips through `parseFloat` -/

theorem dvd_ten_pow_self {n k : ℕ} (hn : n ≠ 0) (h : n ∣ 10 ^ k) : n ∣ 10 ^ n := by
  have h10 : (10 : ℕ) ^ k ≠ 0 := pow_ne_zero _ (by norm_num)
  have h10n : (10 : ℕ) ^ n ≠ 0 := pow_ne_zero _ (by norm_num)
  rw [← Nat.factorization_le_iff_dvd hn h10] at h
  rw [← Nat.factorization_le_iff_dvd hn h10n]
  intro p
  have hk := h p
  simp only [Nat.factorization_pow, Finsupp.smul_apply, smul_eq_mul] at hk ⊢
  rcases Nat.eq_zero_or_pos (Nat.factorization 10 p) with hz | hpos
  · rw [hz] at hk ⊢
    omega
  · have := Nat.factorization_lt p hn
    nlinarith

theorem decScaleSearch_spec {d : ℕ} (hd : d ≠ 0) (h : ∃ k, d ∣ 10 ^ k) :
    ∃ s, decScaleSearch d = some s ∧ d ∣ 10 ^ s := by
  obtain ⟨k, hk⟩ := h
  have hd10 : d ∣ 10 ^ d := dvd_ten_pow_self hd hk
  have hsome : (decScaleSearch d).isSome := by
    rw [decScaleSearch, List.find?_isSome]
    exact ⟨d, by simp [List.mem_range], by simp [hd10]⟩
  obtain ⟨s, hs⟩ := Option.isSome_iff_exists.mp hsome
  refine ⟨s, hs, ?_⟩
  have := List.find?_some hs
  simpa using this

theorem isDec_den_dvd {q : ℚ} (hd : IsDec q) : ∃ k, q.den ∣ 10 ^ k := by
  obtain ⟨m, k, hq⟩ := hd
  have hcast : q = Rat.divInt m ((10 : ℤ) ^ k) := by
    rw [Rat.divInt_eq_div, hq]
    push_cast
    ring
  have hdvd := Rat.den_dvd m ((10 : ℤ) ^ k)
  rw [← hcast] at hdvd
  refine ⟨k, ?_⟩
  have : ((q.den : ℤ)) ∣ ((10 ^ k : ℕ) : ℤ) := by
    push_cast
    exact hdvd
  exact_mod_cast this



theorem parseFloatJs_digits {l : List Char} (hne : l ≠ [])
    (hdig : ∀ c ∈ l, isDigitCh c = true) :
    parseFloatJs l = some ((digitsToNat l : ℚ)) := by
  have hhead : ∀ c, l.head? = some c → isDigitCh c = true :=
    fun c hc => hdig c (List.mem_of_mem_head? hc)
  have hdrop : l.dropWhile isJsWs = l :=
    dropWhile_eq_self_of_head (fun c hc => tokenCh_not_ws (digit_tokenCh (hhead c hc)))
  have hsgn : splitSign l = (1, l) := by
    refine splitSign_not_sign (fun c hc => ?_)
    have := tokenCh_ne_special (digit_tokenCh (hhead c hc))
    exact ⟨this.2.2.2.2.1, this.2.2.2.2.2⟩
  have htake : takeDigits l = (l, []) := by
    have := takeDigits_append (d := l) (r := []) hdig (by intro c hc; cases hc)
    simpa using this
  simp only [parseFloatJs, hdrop, hsgn, htake, splitFrac]
  rw [if_neg (by simpa using hne)]
  simp [digitsToNat, expFactor]

theorem parseFloatJs_digits_frac {a b : List Char} (hane : a ≠ [])
    (ha : ∀ c ∈ a, isDigitCh c = true) (hb : ∀ c ∈ b, isDigitCh c = true) :
    parseFloatJs (a ++ '.' :: b) =
      some ((digitsToNat a : ℚ) + (digitsToNat b : ℚ) / 10 ^ b.length) := by
  have hhead : ∀ c, (a ++ '.' :: b).head? = some c → isDigitCh c = true := by
    intro c hc
    cases a with
    | nil => exact absurd rfl hane
    | cons x a' =>
      simp only [List.cons_append, List.head?_cons, Option.some_inj] at hc
      subst hc
      exact ha x (by simp)
  have hdrop : (a ++ '.' :: b).dropWhile isJsWs = a ++ '.' :: b :=
    dropWhile_eq_self_of_head (fun c hc => tokenCh_not_ws (digit_tokenCh (hhead c hc)))
  have hsgn : splitSign (a ++ '.' :: b) = (1, a ++ '.' :: b) := by
    refine splitSign_not_sign (fun c hc => ?_)
    have := tokenCh_ne_special (digit_tokenCh (hhead c hc))
    exact ⟨this.2.2.2.2.1, this.2.2.2.2.2⟩
  have htake : takeDigits (a ++ '.' :: b) = (a, '.' :: b) :=
    takeDigits_append ha (by intro c hc; simp only [List.head?_cons, Option.some_inj] at hc; subst hc; decide)
  have htakeb : takeDigits b = (b, []) := by
    have := takeDigits_append (d := b) (r := []) hb (by intro c hc; cases hc)
    simpa using this
  simp only [parseFloatJs, hdrop, hsgn, htake, splitFrac, if_pos rfl, htakeb]
  rw [if_neg (by simp only [Bool.and_eq_true, List.isEmpty_iff]; exact fun h => absurd h.1 hane)]
  simp [expFactor]

theorem ratToDecChars_spec (q : ℚ) (h0 : 0 ≤ q) (hd : IsDec q) :
    parseFloatJs (ratToDecChars q) = some q ∧
      ratToDecChars q ≠ [] ∧ ∀ c ∈ ratToDecChars q, tokenCh c = true := by
  obtain ⟨s, hfind, hdvd⟩ := decScaleSearch_spec q.den_pos.ne' (isDec_den_dvd hd)
  have hnum : ((q.num.natAbs : ℤ)) = q.num := Int.natAbs_of_nonneg (Rat.num_nonneg.mpr h0)
  set N := q.num.natAbs with hN
  set D := q.den with hD
  have hDpos : 0 < D := q.den_pos
  have hDdvd : D ∣ N * 10 ^ s := Dvd.dvd.mul_left hdvd N
  set m := N * 10 ^ s / D with hm
  have hmD : m * D = N * 10 ^ s := Nat.div_mul_cancel hDdvd
  have hps : (0 : ℕ) < 10 ^ s := pow_pos (by norm_num) s
  set ip := m / 10 ^ s with hip
  set fp := m % 10 ^ s with hfp
  have hm_split : 10 ^ s * ip + fp = m := Nat.div_add_mod m (10 ^ s)
  have hfp_lt : fp < 10 ^ s := Nat.mod_lt _ hps
  have hval : (m : ℚ) = q * 10 ^ s := by
    have hq := (Rat.num_div_den q).symm
    have hcast : (m : ℚ) * (D : ℚ) = (N : ℚ) * 10 ^ s := by exact_mod_cast hmD
    have hden_ne : ((D : ℚ)) ≠ 0 := by positivity
    rw [hq, div_mul_eq_mul_div, eq_div_iff hden_ne, ← hnum]
    push_cast at hcast ⊢
    linarith
  have hchars : ratToDecChars q = natStr ip ++
      (if s = 0 then [] else '.' :: (List.replicate (s - (natStr fp).length) '0' ++ natStr fp)) := by
    simp only [ratToDecChars, ← hD, hfind]
    rw [if_neg (not_lt.mpr h0)]
    simp [← hN, ← hm, ← hip, ← hfp]
  obtain ⟨hip_ne, hip_dig, hip_val⟩ := natStr_spec ip
  obtain ⟨hfp_ne, hfp_dig, hfp_val⟩ := natStr_spec fp
  by_cases hs0 : s = 0
  · subst hs0
    have hD1 : D = 1 := Nat.dvd_one.mp (by simpa using hdvd)
    have hmN : m = N := by rw [hm, hD1]; simp
    have hchars0 : ratToDecChars q = natStr ip := by rw [hchars]; simp
    have hipm : ip = m := by rw [hip]; simp
    have hqm : (m : ℚ) = q := by simpa using hval
    refine ⟨?_, by rw [hchars0]; exact hip_ne, ?_⟩
    · rw [hchars0, parseFloatJs_digits hip_ne hip_dig, hip_val]
      congr 1
      rw [hipm]
      exact hqm
    · intro c hc
      rw [hchars0] at hc
      exact digit_tokenCh (hip_dig c hc)
  · have hs_pos : 0 < s := Nat.pos_of_ne_zero hs0
    set b : List Char := List.replicate (s - (natStr fp).length) '0' ++ natStr fp with hb
    have hb_dig : ∀ c ∈ b, isDigitCh c = true := by
      intro c hc
      rcases List.mem_append.mp hc with hc | hc
      · rw [List.eq_of_mem_replicate hc]
        decide
      · exact hfp_dig c hc
    have hlen_le : (natStr fp).length ≤ s := natStr_length_le hfp_lt hs_pos
    have hb_len : b.length = s := by
      rw [hb]
      simp only [List.length_append, List.length_replicate]
      omega
    have hb_val : digitsToNat b = fp := by
      rw [hb, digitsToNat_replicate_zero, hfp_val]
    have hchars1 : ratToDecChars q = natStr ip ++ '.' :: b := by
      rw [hchars, if_neg hs0]
    rw [hchars1, parseFloatJs_digits_frac hip_ne hip_dig hb_dig, hip_val, hb_val, hb_len]
    refine ⟨?_, by simp [hip_ne], ?_⟩
    · congr 1
      have h10 : ((10 : ℚ) ^ s) ≠ 0 := by positivity
      rw [eq_comm, ← sub_eq_zero]
      have : q = (m : ℚ) / 10 ^ s := by
        rw [hval]
        field_simp
      rw [this]
      have hm_cast : ((ip : ℚ)) * 10 ^ s + (fp : ℚ) = (m : ℚ) := by exact_mod_cast by linarith [hm_split]
      field_simp
      linarith
    · intro c hc
      rcases List.mem_append.mp hc with hc | hc
      · exact digit_tokenCh (hip_dig c hc)
      · rcases List.mem_cons.mp hc with hc | hc
        · subst hc; decide
        · exact digit_tokenCh (hb_dig c hc)

/-! ## Lemmas: the canonical triplet string re-parses -/

/-- Non-whitespace tokens: shorthand predicate. -/
theorem tokenCh_all_not_ws {l : List Char} (h : ∀ c ∈ l, tokenCh c = true) :
    ∀ c ∈ l, isJsWs c = false := fun c hc => tokenCh_not_ws (h c hc)

theorem stripHslParens_eq_self {l : List Char}
    (h : ∀ c ∈ l, c ≠ 'h' ∧ c ≠ ')') : stripHslParens l = l := by
  induction l with
  | nil => rfl
  | cons c r ih =>
    rw [stripHslParens.eq_def]
    split
    · rename_i r' heq
      obtain ⟨h1, -⟩ := h 'h' (by rw [heq]; simp)
      exact absurd rfl h1
    · rename_i r' heq
      obtain ⟨-, h2⟩ := h ')' (by rw [heq]; simp)
      exact absurd rfl h2
    · rename_i c' r' hne1 hne2 heq
      injection heq with hc hr
      subst hc
      subst hr
      rw [ih (fun x hx => h x (by simp [hx]))]
    · rename_i heq
      exact absurd heq (by simp)



theorem splitWsAux_token {tok : List Char} (htok : ∀ c ∈ tok, isJsWs c = false) :
    ∀ (acc rest : List Char), splitWsAux (tok ++ rest) acc = splitWsAux rest (tok.reverse ++ acc) := by
  induction tok with
  | nil => intro acc rest; simp
  | cons c t ih =>
    intro acc rest
    have hc : isJsWs c = false := htok c (by simp)
    simp only [List.cons_append, splitWsAux, hc, Bool.false_eq_true, if_false]
    have := ih (fun x hx => htok x (by simp [hx])) (c :: acc) rest
    simpa using this

theorem splitWsAux_ws_cons {c : Char} (hc : isJsWs c = true) (rest acc : List Char) :
    splitWsAux (c :: rest) acc =
      if acc.isEmpty then splitWsAux rest [] else acc.reverse :: splitWsAux rest [] := by
  simp [splitWsAux, hc]


theorem jsTrimList_eq_self {l : List Char}
    (hhead : ∀ c, l.head? = some c → isJsWs c = false)
    (hlast : ∀ c, l.getLast? = some c → isJsWs c = false) : jsTrimList l = l := by
  unfold jsTrimList
  rw [dropWhile_eq_self_of_head hhead]
  rw [dropWhile_eq_self_of_head (by
    intro c hc
    rw [List.head?_reverse] at hc
    exact hlast c hc)]
  exact List.reverse_reverse l

theorem jsTrimList_append_space {l : List Char}
    (hhead : ∀ c, l.head? = some c → isJsWs c = false)
    (hlast : ∀ c, l.getLast? = some c → isJsWs c = false) :
    jsTrimList (l ++ [' ']) = l := by
  rcases l with - | ⟨c, r⟩
  · decide
  · have hc : isJsWs c = false := hhead c rfl
    unfold jsTrimList
    rw [show ((c :: r) ++ [' ']) = c :: (r ++ [' ']) from rfl]
    rw [List.dropWhile_cons]
    simp only [hc, Bool.false_eq_true, if_false]
    rw [show (c :: (r ++ [' '])).reverse = ' ' :: (c :: r).reverse from by simp]
    rw [List.dropWhile_cons]
    simp only [show isJsWs ' ' = true from by decide, if_true]
    rw [dropWhile_eq_self_of_head (by
      intro x hx
      rw [List.head?_reverse] at hx
      exact hlast x hx)]
    exact List.reverse_reverse _

/-! ## Lemmas: formatted triplets re-parse through `parseHSL` -/

theorem commaPctToSpace_tokens {l : List Char} (h : ∀ c ∈ l, tokenCh c = true) :
    commaPctToSpace l = l := by
  unfold commaPctToSpace
  induction l with
  | nil => rfl
  | cons c r ih =>
    have hspec := tokenCh_ne_special (h c (by simp))
    simp only [List.map_cons]
    rw [if_neg (by push_neg; exact ⟨hspec.2.2.1, hspec.2.2.2.1⟩)]
    rw [ih (fun x hx => h x (by simp [hx]))]

theorem splitWs_canonical {A B C : List Char}
    (hA : A ≠ []) (hA' : ∀ c ∈ A, isJsWs c = false)
    (hB : B ≠ []) (hB' : ∀ c ∈ B, isJsWs c = false)
    (hC : C ≠ []) (hC' : ∀ c ∈ C, isJsWs c = false) :
    splitWs (A ++ ' ' :: (B ++ ' ' :: ' ' :: C)) = [A, B, C] := by
  have hsp : isJsWs ' ' = true := by decide
  rw [splitWs, splitWsAux_token hA', splitWsAux_ws_cons hsp,
    if_neg (by simp [List.isEmpty_iff, hA])]
  rw [splitWsAux_token hB', splitWsAux_ws_cons hsp, if_neg (by simp [List.isEmpty_iff, hB])]
  rw [splitWsAux_ws_cons hsp, if_pos (by simp)]
  have hCC : splitWsAux C [] = splitWsAux [] C.reverse := by
    have := splitWsAux_token hC' [] []
    simpa using this
  rw [hCC]
  simp [splitWsAux, hC]

theorem parseHSL_of_split {str : String} {A B C : List Char}
    (h : splitWs (jsTrimList (commaPctToSpace (stripHslParens str.data))) = [A, B, C]) :
    parseHSL str = some ⟨max 0 (min 360 (parseFloatOr0 A)), max 0 (min 100 (parseFloatOr0 B)),
      max 0 (min 100 (parseFloatOr0 C))⟩ := by
  simp only [parseHSL]
  rw [h]

theorem tokens_head_not_ws {l rest : List Char} (hne : l ≠ [])
    (htok : ∀ c ∈ l, tokenCh c = true) :
    ∀ c, (l ++ rest).head? = some c → isJsWs c = false := by
  intro c hc
  rw [List.head?_append_of_ne_nil l hne] at hc
  exact tokenCh_not_ws (htok c (List.mem_of_mem_head? hc))

/-- The canonical `"H S% L%"` string printed by `formatHSL hsl false`:
trimming it is the identity, and it re-parses to the clamped components. -/
theorem parseHSL_format (th ts tl : ℚ)
    (hh : 0 ≤ th) (hh' : th ≤ 360) (hdh : IsDec th)
    (hs : 0 ≤ ts) (hs' : ts ≤ 100) (hds : IsDec ts)
    (hl : 0 ≤ tl) (hl' : tl ≤ 100) (hdl : IsDec tl) :
    jsTrim (formatHSL ⟨th, ts, tl⟩ false) = formatHSL ⟨th, ts, tl⟩ false ∧
      parseHSL (formatHSL ⟨th, ts, tl⟩ false) = some ⟨th, ts, tl⟩ := by
  obtain ⟨hAp, hAne, hAtok⟩ := ratToDecChars_spec th hh hdh
  obtain ⟨hBp, hBne, hBtok⟩ := ratToDecChars_spec ts hs hds
  obtain ⟨hCp, hCne, hCtok⟩ := ratToDecChars_spec tl hl hdl
  set A := ratToDecChars th with hA
  set B := ratToDecChars ts with hB
  set C := ratToDecChars tl with hC
  set F : String := formatHSL ⟨th, ts, tl⟩ false with hFdef
  have hF : F.data = A ++ ' ' :: (B ++ '%' :: ' ' :: (C ++ ['%'])) := by
    simp [hFdef, formatHSL, ratToDecString, List.append_assoc]
  have hmem : ∀ c ∈ F.data, c = ' ' ∨ c = '%' ∨ tokenCh c = true := by
    intro c hc
    rw [hF] at hc
    simp only [List.mem_append, List.mem_cons, List.mem_singleton, List.not_mem_nil,
      or_false] at hc
    tauto
  have hlastF : ∀ c, F.data.getLast? = some c → c = '%' := by
    intro c hc
    rw [hF] at hc
    rw [List.getLast?_append_of_ne_nil _ (by simp)] at hc
    rw [show (' ' :: (B ++ '%' :: ' ' :: (C ++ ['%']))).getLast? =
        (B ++ '%' :: ' ' :: (C ++ ['%'])).getLast? from
      List.getLast?_append_of_ne_nil [' '] (by simp)] at hc
    rw [List.getLast?_append_of_ne_nil _ (by simp)] at hc
    rw [show ('%' :: ' ' :: (C ++ ['%'])).getLast? = (C ++ ['%']).getLast? from
      List.getLast?_append_of_ne_nil ['%', ' '] (by simp)] at hc
    rw [List.getLast?_append_of_ne_nil _ (by simp)] at hc
    simp only [List.getLast?_singleton, Option.some_inj] at hc
    exact hc.symm
  have htrim : jsTrim F = F := by
    unfold jsTrim
    rw [jsTrimList_eq_self
      (by rw [hF]; exact tokens_head_not_ws hAne hAtok)
      (by intro c hc; rw [hlastF c hc]; decide)]
  refine ⟨htrim, ?_⟩
  have hstrip : stripHslParens F.data = F.data := by
    apply stripHslParens_eq_self
    intro c hc
    rcases hmem c hc with h | h | h
    · subst h; exact ⟨by decide, by decide⟩
    · subst h; exact ⟨by decide, by decide⟩
    · have := tokenCh_ne_special h
      exact ⟨this.1, this.2.1⟩
  have happ : ∀ x y : List Char,
      commaPctToSpace (x ++ y) = commaPctToSpace x ++ commaPctToSpace y :=
    fun x y => List.map_append _ x y
  have hcons : ∀ (c : Char) (x : List Char),
      commaPctToSpace (c :: x) = (if c = ',' ∨ c = '%' then ' ' else c) :: commaPctToSpace x :=
    fun c x => rfl
  have hcomma : commaPctToSpace F.data = A ++ ' ' :: (B ++ ' ' :: ' ' :: (C ++ [' '])) := by
    rw [hF, happ, commaPctToSpace_tokens hAtok, hcons, happ, commaPctToSpace_tokens hBtok,
      hcons, hcons, happ, commaPctToSpace_tokens hCtok, hcons,
      show commaPctToSpace [] = [] from rfl]
    norm_num
  have hXtrim : jsTrimList (A ++ ' ' :: (B ++ ' ' :: ' ' :: (C ++ [' ']))) =
      A ++ ' ' :: (B ++ ' ' :: ' ' :: C) := by
    rw [show (A ++ ' ' :: (B ++ ' ' :: ' ' :: (C ++ [' ']))) =
        ((A ++ ' ' :: (B ++ ' ' :: ' ' :: C)) ++ [' ']) from by simp]
    apply jsTrimList_append_space
    · exact tokens_head_not_ws hAne hAtok
    · intro c hc
      rw [List.getLast?_append_of_ne_nil _ (by simp)] at hc
      rw [show (' ' :: (B ++ ' ' :: ' ' :: C)).getLast? = (B ++ ' ' :: ' ' :: C).getLast? from
        List.getLast?_append_of_ne_nil [' '] (by simp [hBne])] at hc
      rw [List.getLast?_append_of_ne_nil _ (by simp)] at hc
      rw [show (' ' :: ' ' :: C).getLast? = C.getLast? from
        List.getLast?_append_of_ne_nil [' ', ' '] hCne] at hc
      exact tokenCh_not_ws (hCtok c (List.mem_of_mem_getLast? hc))
  have hsplit : splitWs (jsTrimList (commaPctToSpace (stripHslParens F.data))) = [A, B, C] := by
    rw [hstrip, hcomma, hXtrim]
    exact splitWs_canonical hAne (tokenCh_all_not_ws hAtok) hBne (tokenCh_all_not_ws hBtok)
      hCne (tokenCh_all_not_ws hCtok)
  have hvA : parseFloatOr0 A = th := by unfold parseFloatOr0; rw [hAp]; rfl
  have hvB : parseFloatOr0 B = ts := by unfold parseFloatOr0; rw [hBp]; rfl
  have hvC : parseFloatOr0 C = tl := by unfold parseFloatOr0; rw [hCp]; rfl
  rw [parseHSL_of_split hsplit, hvA, hvB, hvC]
  rw [min_eq_right hh', max_eq_right hh, min_eq_right hs', max_eq_right hs,
    min_eq_right hl', max_eq_right hl]

/-! ## Lemmas: `rgbToHsl` output is integral and in range -/

theorem jsRound_nonneg {q : ℚ} (h : 0 ≤ q) : 0 ≤ jsRound q := by
  unfold jsRound
  have : (0 : ℤ) = ⌊(0 : ℚ) + 1 / 2⌋ := by norm_num
  rw [this]
  exact Int.floor_mono (by linarith)

theorem jsRound_le_intCast {q : ℚ} {K : ℤ} (h : q ≤ (K : ℚ)) : jsRound q ≤ K := by
  unfold jsRound
  have hmono : ⌊q + 1 / 2⌋ ≤ ⌊(K : ℚ) + 1 / 2⌋ := Int.floor_mono (by linarith)
  have hK : ⌊(K : ℚ) + 1 / 2⌋ = K := by
    rw [Int.floor_int_add]
    norm_num
  omega

theorem rgbToHsl_isDec (rgb : RGBColor) :
    IsDec (rgbToHsl rgb).h ∧ IsDec (rgbToHsl rgb).s ∧ IsDec (rgbToHsl rgb).l := by
  simp only [rgbToHsl]
  exact ⟨isDec_intCast _, isDec_intCast _, isDec_intCast _⟩

theorem jsRound_cast_nonneg {q : ℚ} (h0 : 0 ≤ q) : 0 ≤ ((jsRound q : ℤ) : ℚ) := by
  exact_mod_cast jsRound_nonneg h0

theorem jsRound_cast_le {q K : ℚ} {KZ : ℤ} (hcast : ((KZ : ℤ) : ℚ) = K) (h : q ≤ K) :
    ((jsRound q : ℤ) : ℚ) ≤ K := by
  subst hcast
  exact_mod_cast jsRound_le_intCast h

theorem castRound_bounds (KZ : ℤ) {q K : ℚ} (hcast : ((KZ : ℤ) : ℚ) = K) (h0 : 0 ≤ q)
    (hK : q ≤ K) : 0 ≤ ((jsRound q : ℤ) : ℚ) ∧ ((jsRound q : ℤ) : ℚ) ≤ K :=
  ⟨jsRound_cast_nonneg h0, jsRound_cast_le hcast hK⟩

set_option maxHeartbeats 2000000 in
theorem rgbToHsl_range (rgb : RGBColor) (h0r : 0 ≤ rgb.r) (hr : rgb.r ≤ 255)
    (h0g : 0 ≤ rgb.g) (hg : rgb.g ≤ 255) (h0b : 0 ≤ rgb.b) (hb : rgb.b ≤ 255) :
    (0 ≤ (rgbToHsl rgb).h ∧ (rgbToHsl rgb).h ≤ 360) ∧
      (0 ≤ (rgbToHsl rgb).s ∧ (rgbToHsl rgb).s ≤ 100) ∧
      (0 ≤ (rgbToHsl rgb).l ∧ (rgbToHsl rgb).l ≤ 100) := by
  simp only [rgbToHsl]
  set r := rgb.r / 255 with hrdef
  set g := rgb.g / 255 with hgdef
  set b := rgb.b / 255 with hbdef
  have hr01 : 0 ≤ r ∧ r ≤ 1 := by
    refine ⟨div_nonneg h0r (by norm_num), ?_⟩
    rw [hrdef, div_le_one (by norm_num : (0:ℚ) < 255)]
    linarith
  have hg01 : 0 ≤ g ∧ g ≤ 1 := by
    refine ⟨div_nonneg h0g (by norm_num), ?_⟩
    rw [hgdef, div_le_one (by norm_num : (0:ℚ) < 255)]
    linarith
  have hb01 : 0 ≤ b ∧ b ≤ 1 := by
    refine ⟨div_nonneg h0b (by norm_num), ?_⟩
    rw [hbdef, div_le_one (by norm_num : (0:ℚ) < 255)]
    linarith
  set mx := max r (max g b) with hmxdef
  set mn := min r (min g b) with hmndef
  have hmx1 : mx ≤ 1 := max_le hr01.2 (max_le hg01.2 hb01.2)
  have hmn0 : 0 ≤ mn := le_min hr01.1 (le_min hg01.1 hb01.1)
  have hmnmx : mn ≤ mx := le_trans (min_le_left _ _) (le_max_left _ _)
  have hrmx : r ≤ mx := le_max_left _ _
  have hgmx : g ≤ mx := le_trans (le_max_left _ _) (le_max_right _ _)
  have hbmx : b ≤ mx := le_trans (le_max_right _ _) (le_max_right _ _)
  have hrmn : mn ≤ r := min_le_left _ _
  have hgmn : mn ≤ g := le_trans (min_le_right _ _) (min_le_left _ _)
  have hbmn : mn ≤ b := le_trans (min_le_right _ _) (min_le_right _ _)
  have hlight : 0 ≤ (mx + mn) / 2 * 100 ∧ (mx + mn) / 2 * 100 ≤ 100 := by
    constructor
    · have h1 : (0:ℚ) ≤ (mx + mn) / 2 := by linarith
      nlinarith
    · nlinarith
  by_cases hdz : mx - mn = 0
  · have hJ0 : ((jsRound ((0:ℚ) * 360) : ℤ) : ℚ) = 0 := by norm_num [jsRound]
    have hJ0' : ((jsRound ((0:ℚ) * 100) : ℤ) : ℚ) = 0 := by norm_num [jsRound]
    simp only [hdz, ite_true, eq_self_iff_true, if_true]
    refine ⟨?_, ?_, ?_⟩
    · rw [hJ0]
      norm_num
    · rw [hJ0']
      norm_num
    · exact castRound_bounds 100 (by norm_num) hlight.1 hlight.2
  · have hdpos : 0 < mx - mn := lt_of_le_of_ne (by linarith) (Ne.symm hdz)
    rw [if_neg hdz, if_neg hdz, if_neg hdz]
    have hub : ∀ x y : ℚ, x ≤ mx → mn ≤ y → (x - y) / (mx - mn) ≤ 1 := by
      intro x y hx hy
      rw [div_le_one hdpos]
      linarith
    have hlb : ∀ x y : ℚ, mn ≤ x → y ≤ mx → (-1 : ℚ) ≤ (x - y) / (mx - mn) := by
      intro x y hx hy
      rw [le_div_iff hdpos]
      linarith
    refine ⟨?_, ?_, ?_⟩
    · -- hue
      set hv := (if mx = r then (g - b) / (mx - mn) + (if g < b then (6:ℚ) else 0)
        else if mx = g then (b - r) / (mx - mn) + 2 else (r - g) / (mx - mn) + 4) with hhv
      have hh06 : 0 ≤ hv ∧ hv ≤ 6 := by
        rw [hhv]
        by_cases hmr : mx = r
        · rw [if_pos hmr]
          by_cases hglt : g < b
          · rw [if_pos hglt]
            have h1 := hlb g b hgmn hbmx
            have h2 : (g - b) / (mx - mn) ≤ 0 := by
              rw [div_nonpos_iff]
              right
              exact ⟨by linarith, by linarith⟩
            exact ⟨by linarith, by linarith⟩
          · rw [if_neg hglt]
            have h1 := hub g b hgmx hbmn
            have h2 : 0 ≤ (g - b) / (mx - mn) := by
              apply div_nonneg _ (le_of_lt hdpos)
              push_neg at hglt
              linarith
            exact ⟨by linarith, by linarith⟩
        · rw [if_neg hmr]
          by_cases hmg : mx = g
          · rw [if_pos hmg]
            have h1 := hub b r hbmx hrmn
            have h2 := hlb b r hbmn hrmx
            exact ⟨by linarith, by linarith⟩
          · rw [if_neg hmg]
            have h1 := hub r g hrmx hgmn
            have h2 := hlb r g hrmn hgmx
            exact ⟨by linarith, by linarith⟩
      refine castRound_bounds 360 (by norm_num) ?_ ?_
      · have := hh06.1
        positivity
      · have h2 : hv / 6 * 360 = hv * 60 := by ring
        rw [h2]
        nlinarith [hh06.2]
    · -- saturation
      set sv := (if (mx + mn) / 2 > 1 / 2 then (mx - mn) / (2 - mx - mn)
        else (mx - mn) / (mx + mn)) with hsv
      have hs01 : 0 ≤ sv ∧ sv ≤ 1 := by
        rw [hsv]
        by_cases hl2 : (mx + mn) / 2 > 1 / 2
        · rw [if_pos hl2]
          have hden : 0 < 2 - mx - mn := by linarith
          constructor
          · exact div_nonneg (by linarith) (by linarith)
          · rw [div_le_one hden]
            linarith
        · rw [if_neg hl2]
          have hmnlt : mn < mx := by linarith
          have hden : 0 < mx + mn := by linarith
          constructor
          · exact div_nonneg (by linarith) (by linarith)
          · rw [div_le_one hden]
            linarith
      refine castRound_bounds 100 (by norm_num) ?_ ?_
      · have := hs01.1
        positivity
      · nlinarith [hs01.2]
    · -- lightness
      exact castRound_bounds 100 (by norm_num) hlight.1 hlight.2

/-! ## Lemmas: idempotence of the color normalizer on accepted inputs -/

theorem parseHSL_props {s : String} {t : HSLColor} (h : parseHSL s = some t) :
    (0 ≤ t.h ∧ t.h ≤ 360 ∧ IsDec t.h) ∧ (0 ≤ t.s ∧ t.s ≤ 100 ∧ IsDec t.s) ∧
      (0 ≤ t.l ∧ t.l ≤ 100 ∧ IsDec t.l) := by
  simp only [parseHSL] at h
  split at h
  · rename_i p0 p1 p2
    rw [Option.some_inj] at h
    subst h
    refine ⟨⟨le_max_left 0 _, max_le (by norm_num) (min_le_left _ _), ?_⟩,
      ⟨le_max_left 0 _, max_le (by norm_num) (min_le_left _ _), ?_⟩,
      ⟨le_max_left 0 _, max_le (by norm_num) (min_le_left _ _), ?_⟩⟩
    · exact (isDec_natCast 0).maxD ((isDec_natCast 360).minD (parseFloatOr0_isDec _))
    · exact (isDec_natCast 0).maxD ((isDec_natCast 100).minD (parseFloatOr0_isDec _))
    · exact (isDec_natCast 0).maxD ((isDec_natCast 100).minD (parseFloatOr0_isDec _))
  · exact absurd h (by simp)

theorem normalize_of_parseHSL {x : String} {t : HSLColor}
    (h : parseHSL (jsTrim x) = some t) :
    normalizeColorValueToHslTriplet x = formatHSL t false := by
  simp only [normalizeColorValueToHslTriplet]
  rw [h]

theorem normalize_of_parseHex {x : String} {rgb : RGBColor}
    (h1 : parseHSL (jsTrim x) = none) (h2 : parseHex (jsTrim x) = some rgb) :
    normalizeColorValueToHslTriplet x = formatHSL (rgbToHsl rgb) false := by
  simp only [normalizeColorValueToHslTriplet]
  rw [h1, h2]

theorem normalize_format_self (t : HSLColor)
    (hh : 0 ≤ t.h) (hh' : t.h ≤ 360) (hdh : IsDec t.h)
    (hs : 0 ≤ t.s) (hs' : t.s ≤ 100) (hds : IsDec t.s)
    (hl : 0 ≤ t.l) (hl' : t.l ≤ 100) (hdl : IsDec t.l) :
    normalizeColorValueToHslTriplet (formatHSL t false) = formatHSL t false := by
  obtain ⟨th, ts, tl⟩ := t
  obtain ⟨htrim, hparse⟩ := parseHSL_format th ts tl hh hh' hdh hs hs' hds hl hl' hdl
  simp only [normalizeColorValueToHslTriplet]
  rw [htrim, hparse]

theorem normalize_idem_of_parseHSL {x : String} {t : HSLColor}
    (h : parseHSL (jsTrim x) = some t) :
    normalizeColorValueToHslTriplet (normalizeColorValueToHslTriplet x) =
      normalizeColorValueToHslTriplet x := by
  obtain ⟨⟨a1, a2, a3⟩, ⟨b1, b2, b3⟩, ⟨c1, c2, c3⟩⟩ := parseHSL_props h
  rw [normalize_of_parseHSL h]
  exact normalize_format_self t a1 a2 a3 b1 b2 b3 c1 c2 c3

theorem normalize_idem_of_parseHex {x : String} {rgb : RGBColor}
    (h1 : parseHSL (jsTrim x) = none) (h2 : parseHex (jsTrim x) = some rgb)
    (h0r : 0 ≤ rgb.r) (hr : rgb.r ≤ 255) (h0g : 0 ≤ rgb.g) (hg : rgb.g ≤ 255)
    (h0b : 0 ≤ rgb.b) (hb : rgb.b ≤ 255) :
    normalizeColorValueToHslTriplet (normalizeColorValueToHslTriplet x) =
      normalizeColorValueToHslTriplet x := by
  obtain ⟨⟨a1, a2⟩, ⟨b1, b2⟩, ⟨c1, c2⟩⟩ := rgbToHsl_range rgb h0r hr h0g hg h0b hb
  obtain ⟨d1, d2, d3⟩ := rgbToHsl_isDec rgb
  rw [normalize_of_parseHex h1 h2]
  exact normalize_format_self (rgbToHsl rgb) a1 a2 d1 b1 b2 d2 c1 c2 d3

/-! ## Lemmas: the property applicator pointwise -/

theorem dashdash_inj {a b : String} (h : ("--" ++ a : String) = "--" ++ b) : a = b := by
  have hd := congrArg String.data h
  simp only [String.data_append] at hd
  have := List.append_cancel_left hd
  cases a
  cases b
  exact congrArg String.mk (by simpa using this)

theorem setEntry_self (st : StyleMap) (k : String) (v : Option String) :
    setEntry st k v k = v := by
  simp [setEntry]

theorem setEntry_other {q k : String} (st : StyleMap) (v : Option String) (h : q ≠ k) :
    setEntry st k v q = st q := by
  simp [setEntry, h]

theorem clear_foldl_not {l : List String} {q : String}
    (h : ∀ p ∈ l, q ≠ "--" ++ p) (root : StyleMap) :
    (l.foldl (fun st p => setEntry st ("--" ++ p) none) root) q = root q := by
  induction l generalizing root with
  | nil => rfl
  | cons a t ih =>
    simp only [List.foldl_cons]
    rw [ih (fun p hp => h p (by simp [hp])) _]
    exact setEntry_other _ _ (h a (by simp))

theorem clear_foldl_mem {l : List String} {prop : String} (hmem : prop ∈ l)
    (root : StyleMap) :
    (l.foldl (fun st p => setEntry st ("--" ++ p) none) root) ("--" ++ prop) = none := by
  induction l generalizing root with
  | nil => cases hmem
  | cons a t ih =>
    simp only [List.foldl_cons]
    rcases List.mem_cons.mp hmem with h | h
    · subst h
      by_cases ht : prop ∈ t
      · exact ih ht _
      · have : ∀ p ∈ t, ("--" ++ prop : String) ≠ "--" ++ p := by
          intro p hp he
          exact ht (dashdash_inj he ▸ hp)
        rw [clear_foldl_not this]
        exact setEntry_self _ _ _
    · exact ih h _



theorem writeStep_other {colors st : StyleMap} {prop q : String} (h : q ≠ "--" ++ prop) :
    writeStep colors st prop q = st q := by
  unfold writeStep
  rcases hrv : resolveValue colors prop with - | v
  · rfl
  · simp only []
    split_ifs <;> first | exact setEntry_other _ _ h | rfl

theorem writeStep_key_congr {colors st1 st2 : StyleMap} {prop : String}
    (h : st1 ("--" ++ prop) = st2 ("--" ++ prop)) :
    writeStep colors st1 prop ("--" ++ prop) = writeStep colors st2 prop ("--" ++ prop) := by
  unfold writeStep
  rcases hrv : resolveValue colors prop with - | v
  · exact h
  · simp only []
    split_ifs <;> first | rw [setEntry_self, setEntry_self] | exact h

theorem write_foldl_not {colors : StyleMap} {l : List String} {q : String}
    (h : ∀ p ∈ l, q ≠ "--" ++ p) (st : StyleMap) :
    (l.foldl (writeStep colors) st) q = st q := by
  induction l generalizing st with
  | nil => rfl
  | cons a t ih =>
    simp only [List.foldl_cons]
    rw [ih (fun p hp => h p (by simp [hp])) _]
    exact writeStep_other (h a (by simp))

theorem write_foldl_mem {colors : StyleMap} {l : List String} {prop : String}
    (hnd : l.Nodup) (hmem : prop ∈ l) (st : StyleMap) :
    (l.foldl (writeStep colors) st) ("--" ++ prop) =
      writeStep colors st prop ("--" ++ prop) := by
  induction l generalizing st with
  | nil => cases hmem
  | cons a t ih =>
    obtain ⟨hna, hndt⟩ := List.nodup_cons.mp hnd
    simp only [List.foldl_cons]
    rcases List.mem_cons.mp hmem with h | h
    · subst h
      have : ∀ p ∈ t, ("--" ++ prop : String) ≠ "--" ++ p := by
        intro p hp he
        exact hna (dashdash_inj he ▸ hp)
      rw [write_foldl_not this]
    · rw [ih hndt h _]
      exact writeStep_key_congr (writeStep_other (by
        intro he
        rw [dashdash_inj he] at h
        exact hna h))

theorem allCategories_nodup : allCategories.Nodup := by decide

theorem applyPresetColors_root_apply {p : ThemeColors} {m : ModeLD} {root : StyleMap}
    {colors : StyleMap} (h : p m = some colors) {prop : String}
    (hmem : prop ∈ allCategories) :
    (applyPresetColors (some p) m root).1 ("--" ++ prop) =
      resolvedWrite (inheritFonts colors (p (otherModeOf m))) prop := by
  simp only [applyPresetColors, h]
  rw [write_foldl_mem allCategories_nodup hmem]
  unfold writeStep resolvedWrite
  rcases hrv : resolveValue (inheritFonts colors (p (otherModeOf m))) prop with - | v
  · exact clear_foldl_mem hmem root
  · simp only []
    split_ifs <;> first | rw [setEntry_self] | exact clear_foldl_mem hmem root

theorem applyPresetColors_mutated {p : ThemeColors} {m : ModeLD} {root : StyleMap}
    {colors : StyleMap} (h : p m = some colors) :
    (applyPresetColors (some p) m root).2 =
      some (fun m' => if m' = m then some (inheritFonts colors (p (otherModeOf m))) else p m') := by
  simp only [applyPresetColors, h]

end ThemeEngine
namespace ThemeEngine

theorem inheritFonts_none (colors : StyleMap) : inheritFonts colors none = colors := rfl

theorem inheritFonts_apply (colors om : StyleMap) (q : String) :
    inheritFonts colors (some om) q =
      if q ∈ fontProperties ∧ colors q = none ∧ (om q).isSome then om q else colors q := by
  simp only [inheritFonts, fontProperties, List.foldl_cons, List.foldl_nil]
  have hstep : ∀ (c : StyleMap) (fp q' : String), q' ≠ fp →
      (if (c fp).isNone && (om fp).isSome then setEntry c fp (om fp) else c) q' = c q' := by
    intro c fp q' hne
    split_ifs with hcond
    · exact setEntry_other _ _ hne
    · rfl
  have hself : ∀ (c : StyleMap) (fp : String),
      (if (c fp).isNone && (om fp).isSome then setEntry c fp (om fp) else c) fp =
        (if c fp = none ∧ (om fp).isSome then om fp else c fp) := by
    intro c fp
    by_cases h : (c fp).isNone && (om fp).isSome
    · rw [if_pos h, setEntry_self, if_pos]
      rw [Bool.and_eq_true, Option.isNone_iff_eq_none] at h
      exact h
    · rw [if_neg h, if_neg]
      intro hcon
      apply h
      rw [Bool.and_eq_true, Option.isNone_iff_eq_none]
      exact hcon
  by_cases hs1 : q = "font-sans"
  · subst hs1
    rw [hstep _ "font-mono" _ (by decide), hstep _ "font-serif" _ (by decide), hself]
    simp
  by_cases hs2 : q = "font-serif"
  · subst hs2
    rw [hstep _ "font-mono" _ (by decide), hself, hstep _ "font-sans" _ (by decide)]
    simp
  by_cases hs3 : q = "font-mono"
  · subst hs3
    rw [hself, hstep _ "font-serif" _ (by decide), hstep _ "font-sans" _ (by decide)]
    simp
  · rw [hstep _ "font-mono" _ hs3, hstep _ "font-serif" _ hs2, hstep _ "font-sans" _ hs1,
      if_neg]
    rintro ⟨hmem, -⟩
    simp only [List.mem_cons, List.not_mem_nil, or_false] at hmem
    rcases hmem with h | h | h <;> [exact hs1 h; exact hs2 h; exact hs3 h]

end ThemeEngine
namespace ThemeEngine

theorem isDigitCh_ne_dot {c : Char} (h : isDigitCh c = true) : c ≠ '.' := by
  intro hc; subst hc; exact absurd h (by decide)

theorem decScaleSearch_one : decScaleSearch 1 = some 0 := by decide

theorem ratToDecChars_den_one (q : ℚ) (h : q.den = 1) :
    ∀ c ∈ ratToDecChars q, c = '-' ∨ isDigitCh c = true := by
  intro c hc
  rw [ratToDecChars, h, decScaleSearch_one] at hc
  norm_num at hc
  rcases hc with ⟨hq, hc⟩ | hc
  · exact Or.inl hc
  · exact Or.inr ((natStr_spec _).2.1 _ hc)

theorem ratToDecChars_no_dot (q : ℚ) (h : q.den = 1) :
    ∀ c ∈ ratToDecChars q, c ≠ '.' := by
  intro c hc
  rcases ratToDecChars_den_one q h c hc with h1 | h1
  · subst h1; decide
  · exact isDigitCh_ne_dot h1

theorem mentionsDot_formatHSL (hsl : HSLColor)
    (hh : hsl.h.den = 1) (hs : hsl.s.den = 1) (hl : hsl.l.den = 1) :
    mentionsDot (formatHSL hsl false) = false := by
  rw [formatHSL]
  simp only [if_neg (Bool.false_ne_true), mentionsDot]
  rw [Bool.eq_false_iff]
  intro hany
  rw [List.any_eq_true] at hany
  obtain ⟨c, hcmem, hceq⟩ := hany
  rw [decide_eq_true_iff] at hceq
  subst hceq
  have hdata : (ratToDecString hsl.h ++ " " ++ ratToDecString hsl.s ++ "% " ++
      ratToDecString hsl.l ++ "%").data =
      ratToDecChars hsl.h ++ " ".data ++ ratToDecChars hsl.s ++ "% ".data ++
      ratToDecChars hsl.l ++ "%".data := by
    simp [ratToDecString, String.data_append]
  rw [hdata] at hcmem
  simp only [List.mem_append] at hcmem
  rcases hcmem with ((((h1 | h1) | h1) | h1) | h1) | h1
  · exact ratToDecChars_no_dot _ hh _ h1 rfl
  · exact absurd h1 (by decide)
  · exact ratToDecChars_no_dot _ hs _ h1 rfl
  · exact absurd h1 (by decide)
  · exact ratToDecChars_no_dot _ hl _ h1 rfl
  · exact absurd h1 (by decide)

theorem rgbToHsl_den_one (rgb : RGBColor) :
    (rgbToHsl rgb).h.den = 1 ∧ (rgbToHsl rgb).s.den = 1 ∧ (rgbToHsl rgb).l.den = 1 := by
  refine ⟨?_, ?_, ?_⟩ <;> simp [rgbToHsl, Rat.den_intCast]

end ThemeEngine
namespace ThemeEngine

/-! ## Shared helper lemmas for the claim theorems -/

theorem resolvedWrite_eq_none_iff (colors : StyleMap) (prop : String) :
    resolvedWrite colors prop = none ↔ truthy (resolveValue colors prop) = false := by
  unfold resolvedWrite
  rcases h : resolveValue colors prop with - | v
  · simp [truthy]
  · by_cases hv : v = "" <;> simp [truthy, hv]

theorem validateCustomPresets_isValid_eq (c : List (String × JsVal)) :
    (validateCustomPresets c).isValid = (validateCustomPresets c).errors.isEmpty := rfl

theorem isValidColorValue_eq_true (value : String) : isValidColorValue value = true := by
  simp only [isValidColorValue]
  split_ifs <;> rfl

set_option maxRecDepth 100000 in
theorem norm_rgb_red_eval :
    normalizeColorValueToHslTriplet "rgb(255, 0, 0)" = "0 0% 0%" := by
  with_unfolding_all rfl

set_option maxRecDepth 100000 in
theorem script_norm_rgb_red_eval :
    scriptNormalizeColorValueToHslTriplet "rgb(255, 0, 0)" = "0 100% 50%" := by
  with_unfolding_all rfl

set_option maxRecDepth 100000 in
theorem format_rgbToHsl_red_eval :
    formatHSL (rgbToHsl ⟨255, 0, 0⟩) false = "0 100% 50%" := by
  with_unfolding_all rfl

end ThemeEngine
namespace ThemeEngine

/-! ## The claims -/

set_option maxRecDepth 1000000 in
/-- C1: the claim that the bootstrap script's inlined normalizer and property
applicator agree with the provider's runtime normalizer and applicator is
false: on the input `"rgb(255, 0, 0)"` the runtime normalizer mis-parses the
string through `parseHSL` and yields `"0 0% 0%"`, while the script's
normalizer converts it correctly to `"0 100% 50%"`; consequently the two
applicators write different values for `--background` from the same preset. -/
theorem bootstrap_runtime_divergence :
    normalizeColorValueToHslTriplet "rgb(255, 0, 0)" = "0 0% 0%" ∧
    scriptNormalizeColorValueToHslTriplet "rgb(255, 0, 0)" = "0 100% 50%" ∧
    normalizeColorValueToHslTriplet "rgb(255, 0, 0)" ≠
      scriptNormalizeColorValueToHslTriplet "rgb(255, 0, 0)" ∧
    (applyPresetColors (some exRgbPreset) ModeLD.light emptyStyle).1 ("--" ++ "background") =
      some "0 0% 0%" ∧
    scriptApplyPresetProperties (exRgbPreset ModeLD.light) emptyStyle ("--" ++ "background") =
      some "0 100% 50%" := by
  refine ⟨norm_rgb_red_eval, script_norm_rgb_red_eval, ?_, ?_, ?_⟩
  · rw [norm_rgb_red_eval, script_norm_rgb_red_eval]
    decide
  · with_unfolding_all rfl
  · with_unfolding_all rfl

/-- C2: the claim that the runtime normalizer converts `rgb(r, g, b)` inputs
by the standard RGB→HSL algorithm is false: the intended conversion of
`"rgb(255, 0, 0)"` is `"0 100% 50%"` (as `formatHSL (rgbToHsl ⟨255, 0, 0⟩)`
confirms), but the normalizer returns `"0 0% 0%"` because `parseHSL`
greedily accepts the comma-split `rgb(...)` text first. -/
theorem rgb_normalization_divergence :
    formatHSL (rgbToHsl ⟨255, 0, 0⟩) false = "0 100% 50%" ∧
    normalizeColorValueToHslTriplet "rgb(255, 0, 0)" = "0 0% 0%" ∧
    normalizeColorValueToHslTriplet "rgb(255, 0, 0)" ≠ "0 100% 50%" := by
  refine ⟨format_rgbToHsl_red_eval, norm_rgb_red_eval, ?_⟩
  rw [norm_rgb_red_eval]
  decide

/-- C3: the claim that an invalid persisted mode string is discarded is
false for the provider: `getStoredMode` passes `"banana"` through, the
persisted-mode effect adopts it as `mode`, and the resolved-mode effect
casts it through as `resolvedMode`; only the bootstrap script validates the
stored string and falls back to the default. -/
theorem invalid_stored_mode_adopted :
    getStoredMode (some "banana") = some "banana" ∧
    modeAfterLoadEffect "system" (some "banana") = "banana" ∧
    resolvedModeOfEffect "banana" false = "banana" ∧
    scriptEffectiveMode (some "banana") "system" = "system" := by
  decide

/-- C4: registry merge is atomic all-or-nothing: `availablePresets` equals
the built-in lookup exactly when `validateCustomPresets` reports a hard
error, and otherwise looks up the custom collection first (every custom
entry merged, overriding built-ins by key); `builtInPresets` is the static
collection in both cases. -/
theorem availablePresets_atomic_merge (custom : List (String × JsVal)) (k : String) :
    availablePresets custom k =
      (if (validateCustomPresets custom).errors = []
       then (recLookup custom k).orElse (fun _ => recLookup builtInPresets k)
       else recLookup builtInPresets k) ∧
    builtInPresets = tweakcnPresets := by
  refine ⟨?_, rfl⟩
  by_cases herr : (validateCustomPresets custom).errors = []
  · rw [if_pos herr]
    rcases hc : custom with - | ⟨a, rest⟩
    · rfl
    · have hcond : ((validateCustomPresets (a :: rest)).isValid ||
          (validateCustomPresets (a :: rest)).errors.isEmpty) = true := by
        rw [validateCustomPresets_isValid_eq]
        rw [hc] at herr
        rw [herr]
        rfl
      simp only [availablePresets, List.isEmpty_cons, Bool.false_eq_true, if_false, hcond,
        if_true]
      rfl
  · have hc : ¬(custom.isEmpty = true) := by
      intro h
      rcases custom with - | ⟨a, rest⟩
      · exact herr rfl
      · exact absurd h (by simp)
    have hcond : ((validateCustomPresets custom).isValid ||
        (validateCustomPresets custom).errors.isEmpty) = false := by
      rw [validateCustomPresets_isValid_eq, Bool.or_self]
      rcases h : (validateCustomPresets custom).errors with - | ⟨e, es⟩
      · exact absurd h herr
      · rfl
    rw [if_neg herr]
    simp only [availablePresets, if_neg hc, hcond, Bool.false_eq_true, if_false]
    rfl

/-- C5: clearing invariant of the property applicator: after applying preset
A and then preset B in the same resolved mode, each fixed-set property
`--prop` on the root holds exactly the value resolved for B (post font
inheritance and defaults), and in particular it is absent whenever B
resolves no truthy value for it — nothing from A survives. -/
theorem applyPresetColors_clearing_invariant (A B : ThemeColors) (m : ModeLD)
    (root0 : StyleMap) (colorsB : StyleMap) (hB : B m = some colorsB)
    (prop : String) (hmem : prop ∈ allCategories) :
    (applyPresetColors (some B) m (applyPresetColors (some A) m root0).1).1 ("--" ++ prop) =
      resolvedWrite (inheritFonts colorsB (B (otherModeOf m))) prop ∧
    (truthy (resolveValue (inheritFonts colorsB (B (otherModeOf m))) prop) = false →
      (applyPresetColors (some B) m (applyPresetColors (some A) m root0).1).1 ("--" ++ prop) =
        none) := by
  have h := @applyPresetColors_root_apply B m ((applyPresetColors (some A) m root0).1)
    colorsB hB prop hmem
  refine ⟨h, fun hf => ?_⟩
  rw [h]
  exact (resolvedWrite_eq_none_iff _ _).mpr hf

/-- C5 (witness): applying `exPresetA` (a light `background`) and then
`exPresetB` (empty maps) leaves `--background` absent. -/
theorem applyPresetColors_clearing_invariant_witness :
    exPresetB ModeLD.light = some emptyStyle ∧
    "background" ∈ allCategories ∧
    truthy (resolveValue (inheritFonts emptyStyle (exPresetB (otherModeOf ModeLD.light)))
      "background") = false ∧
    (applyPresetColors (some exPresetB) ModeLD.light
        (applyPresetColors (some exPresetA) ModeLD.light emptyStyle).1).1
      ("--" ++ "background") = none := by
  have ht : truthy (resolveValue (inheritFonts emptyStyle
      (exPresetB (otherModeOf ModeLD.light))) "background") = false := by
    with_unfolding_all rfl
  have h := applyPresetColors_clearing_invariant exPresetA exPresetB ModeLD.light emptyStyle
    emptyStyle rfl "background" (by decide)
  exact ⟨rfl, by decide, ht, h.2 ht⟩

end ThemeEngine
namespace ThemeEngine

/-- C6 (counterexample): font inheritance mutates the stored preset.  For
`exFontPreset` (dark map empty, light map holding `font-mono = "X"`),
applying the dark mode leaves the preset's dark map with `font-mono = "X"`,
whereas it held no `font-mono` entry before the apply. -/
theorem font_inheritance_mutates_counterexample :
    (exFontPreset ModeLD.dark).map (fun cs => cs "font-mono") = some none ∧
    ((applyPresetColors (some exFontPreset) ModeLD.dark emptyStyle).2.map
      (fun p' => (p' ModeLD.dark).map (fun cs => cs "font-mono"))) = some (some (some "X")) :=
  ⟨rfl, by with_unfolding_all rfl⟩

/-- C6 (amended): font inheritance is a per-application patch of the mode
map being applied, but it is written into the stored preset: after the
apply, the stored preset's target-mode map is exactly the original map
patched pointwise with the other mode's font values (on the three font
properties absent from the target map and present in the other map), and
the other mode's map is untouched. -/
theorem font_inheritance_patch_amended {p : ThemeColors} {m : ModeLD} {root : StyleMap}
    {colors om : StyleMap} (h : p m = some colors) (hom : p (otherModeOf m) = some om) :
    ∃ colors', (applyPresetColors (some p) m root).2 =
        some (fun m' => if m' = m then some colors' else p m') ∧
      ∀ q, colors' q =
        if q ∈ fontProperties ∧ colors q = none ∧ (om q).isSome then om q else colors q := by
  refine ⟨inheritFonts colors (p (otherModeOf m)), applyPresetColors_mutated h, fun q => ?_⟩
  rw [hom]
  exact inheritFonts_apply colors om q

/-- C6 (witness): the amended characterization at `exFontPreset`, dark mode. -/
theorem font_inheritance_patch_amended_witness :
    exFontPreset ModeLD.dark = some emptyStyle ∧
    exFontPreset (otherModeOf ModeLD.dark) = some (singleEntry "font-mono" "X") ∧
    ∃ colors', (applyPresetColors (some exFontPreset) ModeLD.dark emptyStyle).2 =
        some (fun m' => if m' = ModeLD.dark then some colors' else exFontPreset m') ∧
      ∀ q, colors' q =
        if q ∈ fontProperties ∧ emptyStyle q = none ∧ (singleEntry "font-mono" "X" q).isSome
        then singleEntry "font-mono" "X" q else emptyStyle q :=
  ⟨rfl, rfl, font_inheritance_patch_amended rfl rfl⟩

/-- C7 (counterexample): an unrecognized color value produces no warning.
`"blurple-zap-0.5"` is rejected by the permissive color-syntax recognizer,
yet validating a schema-complete candidate carrying it as its dark `border`
yields no warnings (and no errors) at all. -/
theorem unrecognized_color_no_warning_counterexample :
    isRecognizedColorSyntax "blurple-zap-0.5" = false ∧
    (validateTweakCNPreset exBogusColorCandidate (some "bogus")).warnings = [] ∧
    (validateTweakCNPreset exBogusColorCandidate (some "bogus")).errors = [] := by
  refine ⟨by decide, ?_, ?_⟩ <;> with_unfolding_all rfl

/-- C7 (amended): the color check is vacuous: `isValidColorValue` returns
`true` on every input (its catch-all final branch), so the validator's
color-value loop never appends a warning — unrecognized values produce
neither warning nor error. -/
theorem color_warnings_vacuous_amended (value pfx mode : String)
    (modeStyles : List (String × JsVal)) :
    isValidColorValue value = true ∧ colorValueWarnings pfx mode modeStyles = [] := by
  refine ⟨isValidColorValue_eq_true value, ?_⟩
  rw [colorValueWarnings, List.filterMap_eq_nil]
  intro kv hkv
  rcases kv with ⟨k, v⟩
  cases v <;> simp [isValidColorValue_eq_true]

end ThemeEngine
namespace ThemeEngine

set_option maxRecDepth 1000000 in
/-- C8 (counterexample): the normalizer is not idempotent on its own output.
The accepted hex-shaped input `"-f0-f0"` parses to a negative red channel,
so the emitted saturation `113%` exceeds the formatter's range; a second
normalization clamps it to `100%`, changing the string. -/
theorem normalize_not_idempotent_counterexample :
    normalizeColorValueToHslTriplet "-f0-f0" = "236 113% 44%" ∧
    normalizeColorValueToHslTriplet (normalizeColorValueToHslTriplet "-f0-f0") =
      "236 100% 44%" ∧
    normalizeColorValueToHslTriplet (normalizeColorValueToHslTriplet "-f0-f0") ≠
      normalizeColorValueToHslTriplet "-f0-f0" := by
  have h1 : normalizeColorValueToHslTriplet "-f0-f0" = "236 113% 44%" := by
    with_unfolding_all rfl
  have h2 : normalizeColorValueToHslTriplet "236 113% 44%" = "236 100% 44%" := by
    with_unfolding_all rfl
  refine ⟨h1, by rw [h1]; exact h2, ?_⟩
  rw [h1, h2]
  decide

set_option maxRecDepth 1000000 in
/-- C8 (amended): the normalizer is idempotent on every input it accepts
through `parseHSL` (hsl()/raw triplets) and on every input it accepts
through `parseHex` whose three parsed channels lie in `[0, 255]` (all
`#`-prefixed hex colors); in particular `normalize("#ff0000") = "0 100% 50%"`
and `normalize("0 100% 50%") = "0 100% 50%"`. -/
theorem normalize_idempotent_amended (x : String)
    (haccept : (∃ t, parseHSL (jsTrim x) = some t) ∨
      ∃ rgb, parseHex (jsTrim x) = some rgb ∧ 0 ≤ rgb.r ∧ rgb.r ≤ 255 ∧
        0 ≤ rgb.g ∧ rgb.g ≤ 255 ∧ 0 ≤ rgb.b ∧ rgb.b ≤ 255) :
    normalizeColorValueToHslTriplet (normalizeColorValueToHslTriplet x) =
        normalizeColorValueToHslTriplet x ∧
    normalizeColorValueToHslTriplet "#ff0000" = "0 100% 50%" ∧
    normalizeColorValueToHslTriplet "0 100% 50%" = "0 100% 50%" := by
  refine ⟨?_, by with_unfolding_all rfl, by with_unfolding_all rfl⟩
  rcases haccept with ⟨t, ht⟩ | ⟨rgb, hrgb, h0r, hr, h0g, hg, h0b, hb⟩
  · exact normalize_idem_of_parseHSL ht
  · rcases hp : parseHSL (jsTrim x) with - | t
    · exact normalize_idem_of_parseHex hp hrgb h0r hr h0g hg h0b hb
    · exact normalize_idem_of_parseHSL hp

set_option maxRecDepth 1000000 in
/-- C8 (witness): the amended idempotence at the accepted input `"#ff0000"`. -/
theorem normalize_idempotent_amended_witness :
    ((∃ t, parseHSL (jsTrim "#ff0000") = some t) ∨
      ∃ rgb, parseHex (jsTrim "#ff0000") = some rgb ∧ 0 ≤ rgb.r ∧ rgb.r ≤ 255 ∧
        0 ≤ rgb.g ∧ rgb.g ≤ 255 ∧ 0 ≤ rgb.b ∧ rgb.b ≤ 255) ∧
    normalizeColorValueToHslTriplet (normalizeColorValueToHslTriplet "#ff0000") =
      normalizeColorValueToHslTriplet "#ff0000" := by
  have hacc : (∃ t, parseHSL (jsTrim "#ff0000") = some t) ∨
      ∃ rgb, parseHex (jsTrim "#ff0000") = some rgb ∧ 0 ≤ rgb.r ∧ rgb.r ≤ 255 ∧
        0 ≤ rgb.g ∧ rgb.g ≤ 255 ∧ 0 ≤ rgb.b ∧ rgb.b ≤ 255 :=
    Or.inr ⟨⟨255, 0, 0⟩, by with_unfolding_all rfl,
      (by norm_num : (0 : ℚ) ≤ 255), (by norm_num : (255 : ℚ) ≤ 255),
      (by norm_num : (0 : ℚ) ≤ 0), (by norm_num : (0 : ℚ) ≤ 255),
      (by norm_num : (0 : ℚ) ≤ 0), (by norm_num : (0 : ℚ) ≤ 255)⟩
  exact ⟨hacc, (normalize_idempotent_amended "#ff0000" hacc).1⟩

set_option maxRecDepth 1000000 in
/-- C9 (counterexample): fractional components survive normalization on the
hsl() path: `parseHSL` keeps the parsed floats unrounded, so
`"hsl(10.5, 20.5%, 30.5%)"` normalizes to `"10.5 20.5% 30.5%"`, which
contains fractional degrees and percents. -/
theorem normalize_fractional_counterexample :
    normalizeColorValueToHslTriplet "hsl(10.5, 20.5%, 30.5%)" = "10.5 20.5% 30.5%" ∧
    mentionsDot (normalizeColorValueToHslTriplet "hsl(10.5, 20.5%, 30.5%)") = true := by
  have h : normalizeColorValueToHslTriplet "hsl(10.5, 20.5%, 30.5%)" =
      "10.5 20.5% 30.5%" := by
    with_unfolding_all rfl
  refine ⟨h, ?_⟩
  rw [h]
  decide

/-- C9 (amended): on the hex path (inputs rejected by `parseHSL` and parsed
by `parseHex`) every emitted component goes through `Math.round`, so the
returned triplet contains no decimal point — no fractional degrees or
percents.  (The hsl() path instead passes fractional components through
unrounded.) -/
theorem normalize_hex_integral_amended (x : String) (rgb : RGBColor)
    (h1 : parseHSL (jsTrim x) = none) (h2 : parseHex (jsTrim x) = some rgb) :
    mentionsDot (normalizeColorValueToHslTriplet x) = false := by
  rw [normalize_of_parseHex h1 h2]
  obtain ⟨hh, hs, hl⟩ := rgbToHsl_den_one rgb
  exact mentionsDot_formatHSL _ hh hs hl

set_option maxRecDepth 1000000 in
/-- C9 (witness): the amended integrality at the hex input `"#ff0000"`. -/
theorem normalize_hex_integral_amended_witness :
    parseHSL (jsTrim "#ff0000") = none ∧
    parseHex (jsTrim "#ff0000") = some ⟨255, 0, 0⟩ ∧
    mentionsDot (normalizeColorValueToHslTriplet "#ff0000") = false := by
  have hp : parseHSL (jsTrim "#ff0000") = none := by with_unfolding_all rfl
  have hx : parseHex (jsTrim "#ff0000") = some ⟨255, 0, 0⟩ := by with_unfolding_all rfl
  exact ⟨hp, hx, normalize_hex_integral_amended "#ff0000" ⟨255, 0, 0⟩ hp hx⟩

/-- C10: if the preset argument is absent, or the preset has no map for the
requested resolved mode, `applyPresetColors` is a complete no-op: every
custom property on the root keeps exactly its previous value (stale
properties from an earlier apply are not removed). -/
theorem applyPresetColors_early_return_noop (m : ModeLD) (root : StyleMap) (q : String) :
    (applyPresetColors none m root).1 q = root q ∧
    ∀ p : ThemeColors, p m = none → (applyPresetColors (some p) m root).1 q = root q := by
  refine ⟨rfl, fun p h => ?_⟩
  simp only [applyPresetColors, h]

/-- C10 (witness): the no-op at a preset with no dark map, over a root still
holding a stale `--x` entry. -/
theorem applyPresetColors_early_return_noop_witness :
    exNoDarkPreset ModeLD.dark = none ∧
    (applyPresetColors none ModeLD.dark (singleEntry "--x" "y")).1 "--x" = some "y" ∧
    (applyPresetColors (some exNoDarkPreset) ModeLD.dark (singleEntry "--x" "y")).1 "--x" =
      some "y" := by
  have h := applyPresetColors_early_return_noop ModeLD.dark (singleEntry "--x" "y") "--x"
  refine ⟨rfl, ?_, ?_⟩
  · rw [h.1]
    with_unfolding_all rfl
  · rw [h.2 exNoDarkPreset rfl]
    with_unfolding_all rfl

end ThemeEngine
